import Mathlib

set_option maxRecDepth 8000

/-!
Verification of the LogflareMCP server (TypeScript sources `src/server.ts`,
`src/utils.ts`, `src/types.ts`) through a shallow embedding in Lean.

Conventions of the embedding:
* The in-memory session table `activeSessions : Map<string, {server, transport, timeout}>`
  is modelled as an association list from session ids to the pending idle-timer
  deadline (a `Nat`, milliseconds).  The `McpServer` and `SSEServerTransport`
  handles carried by each entry play no role in the verified properties, so an
  entry is represented by its timer alone.
* JavaScript strings are Lean `String`s; handler logic that inspects them is
  translated character by character from the source regular expressions.
* JavaScript numbers are modelled as `Int`/`Nat`/`Rat` where the source only
  performs exact integer or decimal arithmetic on them.
-/

/-- The session table: session id to the deadline of its pending idle timer.
Mirrors `activeSessions` in `src/server.ts` (the server/transport handles of an
entry are irrelevant to the verified properties and are omitted). -/
abbrev SessionTable := List (String × Nat)

/-- `SESSION_TIMEOUT_MS = 30 * 60 * 1000` from `src/server.ts`. -/
def SESSION_TIMEOUT_MS : Nat := 30 * 60 * 1000

/-- `activeSessions.get(id)` on the association-list model. -/
def lookupSession : SessionTable → String → Option Nat
  | [], _ => none
  | (k, v) :: rest, id => if k = id then some v else lookupSession rest id

/-- `activeSessions.delete(id)`: removes the entry with the given key (a JS
`Map` holds at most one entry per key; dropping every occurrence of the key
from the association list removes exactly it). -/
def eraseSession : SessionTable → String → SessionTable
  | [], _ => []
  | (k, v) :: rest, id => if k = id then eraseSession rest id else (k, v) :: eraseSession rest id

/-- `activeSessions.set(id, entry)` for a fresh id: a JS `Map.set` on an absent
key appends the entry in iteration order. -/
def insertSession (t : SessionTable) (id : String) (deadline : Nat) : SessionTable :=
  t ++ [(id, deadline)]

/-- `session.timeout = setTimeout(...)` on an existing entry: the entry keeps
its position in the table and only its timer changes. -/
def setDeadline : SessionTable → String → Nat → SessionTable
  | [], _, _ => []
  | (k, v) :: rest, id, d => if k = id then (k, d) :: rest else (k, v) :: setDeadline rest id d

/-- The `res.on("close")` handler of `src/server.ts` lines 606-613: look the
session up, and when present clear its timer and delete the entry. -/
def closeCleanup (t : SessionTable) (id : String) : SessionTable :=
  match lookupSession t id with
  | some _ => eraseSession t id
  | none => t

/-- The `setTimeout` expiry callback of `src/server.ts` lines 597-600:
unconditionally `activeSessions.delete(transport.sessionId)`. -/
def expiryCleanup (t : SessionTable) (id : String) : SessionTable :=
  eraseSession t id

/-- The `catch` branch of `server.connect(transport)` in `src/server.ts` lines
617-623: look the session up, and when present clear its timer and delete the
entry. -/
def connectErrorCleanup (t : SessionTable) (id : String) : SessionTable :=
  match lookupSession t id with
  | some _ => eraseSession t id
  | none => t

/-- The three cleanup triggers of the session lifecycle. -/
inductive CleanupTrigger where
  | transportClose
  | idleTimeout
  | connectError
deriving DecidableEq

/-- Dispatch a cleanup trigger to the handler it runs in `src/server.ts`. -/
def applyCleanup : CleanupTrigger → SessionTable → String → SessionTable
  | .transportClose, t, id => closeCleanup t id
  | .idleTimeout, t, id => expiryCleanup t id
  | .connectError, t, id => connectErrorCleanup t id

theorem lookupSession_eraseSession (t : SessionTable) (id : String) :
    lookupSession (eraseSession t id) id = none := by
  induction t with
  | nil => rfl
  | cons hd tl ih =>
    obtain ⟨k, v⟩ := hd
    by_cases hk : k = id
    · simpa [eraseSession, hk] using ih
    · simpa [eraseSession, hk, lookupSession] using ih

theorem eraseSession_eraseSession (t : SessionTable) (id : String) :
    eraseSession (eraseSession t id) id = eraseSession t id := by
  induction t with
  | nil => rfl
  | cons hd tl ih =>
    obtain ⟨k, v⟩ := hd
    by_cases hk : k = id
    · simpa [eraseSession, hk] using ih
    · simpa [eraseSession, hk] using ih

theorem eraseSession_of_lookup_none (t : SessionTable) (id : String)
    (h : lookupSession t id = none) : eraseSession t id = t := by
  induction t with
  | nil => rfl
  | cons hd tl ih =>
    obtain ⟨k, v⟩ := hd
    by_cases hk : k = id
    · simp [lookupSession, hk] at h
    · simp only [lookupSession, if_neg hk] at h
      simpa [eraseSession, hk] using ih h

/-- Every cleanup trigger has the same effect on the table as a plain delete. -/
theorem applyCleanup_eq_erase (trig : CleanupTrigger) (t : SessionTable) (id : String) :
    applyCleanup trig t id = eraseSession t id := by
  cases trig with
  | transportClose =>
    simp only [applyCleanup, closeCleanup]
    cases h : lookupSession t id with
    | none => exact (eraseSession_of_lookup_none t id h).symm
    | some v => rfl
  | idleTimeout => rfl
  | connectError =>
    simp only [applyCleanup, connectErrorCleanup]
    cases h : lookupSession t id with
    | none => exact (eraseSession_of_lookup_none t id h).symm
    | some v => rfl

/-- C1: Session cleanup is idempotent: running any cleanup trigger (transport
close, idle-timeout expiry, or connect-error) leaves the table without the
session id, produces no error, and running any second trigger afterwards, in
either order, leaves the table exactly as after the first run. -/
theorem cleanup_idempotent (trig trig2 : CleanupTrigger) (t : SessionTable) (id : String) :
    lookupSession (applyCleanup trig t id) id = none ∧
    applyCleanup trig2 (applyCleanup trig t id) id = applyCleanup trig t id := by
  constructor
  · rw [applyCleanup_eq_erase]
    exact lookupSession_eraseSession t id
  · rw [applyCleanup_eq_erase, applyCleanup_eq_erase]
    exact eraseSession_eraseSession t id

/-! ### The `GET /sse` handler: header validation (`src/server.ts` lines 18-38) -/

/-- A Node request header value: `req.headers[name]` is `undefined`, a single
string, or an array of strings; the absent case is the surrounding `Option`. -/
inductive HeaderVal where
  | str (s : String)
  | strs (ls : List String)
deriving DecidableEq

/-- The guard `!v || typeof v !== "string"` of `src/server.ts` lines 24 and 29:
a header passes iff it is a single non-empty string (`undefined` and `""` are
falsy; arrays fail the `typeof` check). -/
def headerIsValid : Option HeaderVal → Bool
  | some (.str s) => s != ""
  | _ => false

/-- Literal 401 body for a missing api key (`src/server.ts` line 25). -/
def missingApiKeyMsg : String :=
  "Missing \x27x-logflare-api-key\x27 header. Please configure it in your request header"

/-- Literal 401 body for a missing source token (`src/server.ts` line 30). -/
def missingSourceTokenMsg : String :=
  "Missing \x27x-logflare-source-token\x27 header. Please configure it in your request header"

/-- Observable outcome of the `GET /sse` handler: the HTTP status written with
`res.status(...).send(...)` (`none` when the handler leaves the response open
as an SSE stream), the body sent, the session table afterwards, and whether a
`new McpServer` was constructed / a transport opened. -/
structure SseGetResult where
  status : Option Nat
  body : Option String
  table : SessionTable
  serverCreated : Bool
  transportOpened : Bool
deriving DecidableEq

/-- The `app.get("/sse")` handler of `src/server.ts`: validate the two headers,
then build the per-connection server, transport and timer, insert the session,
and either keep the stream open (`connectOk`) or run the connect-error cleanup
and answer 500.  `now` is the current clock in ms and `newId` the session id
minted by the transport. -/
def sseGet (apiKey sourceToken : Option HeaderVal) (t : SessionTable)
    (newId : String) (now : Nat) (connectOk : Bool) : SseGetResult :=
  if !headerIsValid apiKey then
    ⟨some 401, some missingApiKeyMsg, t, false, false⟩
  else if !headerIsValid sourceToken then
    ⟨some 401, some missingSourceTokenMsg, t, false, false⟩
  else
    let t1 := insertSession t newId (now + SESSION_TIMEOUT_MS)
    if connectOk then
      ⟨none, none, t1, true, true⟩
    else
      ⟨some 500, none, connectErrorCleanup t1 newId, true, true⟩

/-- C2: any `GET /sse` whose `x-logflare-api-key` or `x-logflare-source-token`
header is missing, empty, or not a single string is answered with HTTP 401 and
the plain-text message naming the missing header, and nothing else happens: no
protocol server is constructed, no transport is opened, and the session table
is unchanged. -/
theorem sseGet_invalid_headers (apiKey sourceToken : Option HeaderVal)
    (t : SessionTable) (newId : String) (now : Nat) (connectOk : Bool) :
    (headerIsValid apiKey = false →
      sseGet apiKey sourceToken t newId now connectOk =
        ⟨some 401, some missingApiKeyMsg, t, false, false⟩) ∧
    (headerIsValid apiKey = true → headerIsValid sourceToken = false →
      sseGet apiKey sourceToken t newId now connectOk =
        ⟨some 401, some missingSourceTokenMsg, t, false, false⟩) := by
  constructor
  · intro h
    simp [sseGet, h]
  · intro h1 h2
    simp [sseGet, h1, h2]

/-- Witness for C2 at concrete inputs: a missing api key, an empty api key, an
array-valued api key, and a valid api key with a missing source token. -/
theorem sseGet_invalid_headers_witness :
    sseGet none (some (.str "tok")) [] "s1" 0 true =
      ⟨some 401, some missingApiKeyMsg, [], false, false⟩ ∧
    sseGet (some (.str "")) (some (.str "tok")) [] "s1" 0 true =
      ⟨some 401, some missingApiKeyMsg, [], false, false⟩ ∧
    sseGet (some (.strs ["a", "b"])) (some (.str "tok")) [] "s1" 0 true =
      ⟨some 401, some missingApiKeyMsg, [], false, false⟩ ∧
    sseGet (some (.str "key")) none [("live", 7)] "s1" 0 true =
      ⟨some 401, some missingSourceTokenMsg, [("live", 7)], false, false⟩ :=
  ⟨(sseGet_invalid_headers none (some (.str "tok")) [] "s1" 0 true).1 (by decide),
   (sseGet_invalid_headers (some (.str "")) (some (.str "tok")) [] "s1" 0 true).1 (by decide),
   (sseGet_invalid_headers (some (.strs ["a", "b"])) (some (.str "tok")) [] "s1" 0 true).1 (by decide),
   (sseGet_invalid_headers (some (.str "key")) none [("live", 7)] "s1" 0 true).2 (by decide) (by decide)⟩

/-! ### The `POST /messages` handler (`src/server.ts` lines 636-667) -/

/-- Observable outcome of the `POST /messages` handler: the HTTP status set via
`res.status(...).send(...)` (`none` when the message was delegated to the
transport, which then owns the response), the session table afterwards, and
whether the body reached `session.transport.handlePostMessage`. -/
structure PostMessagesResult where
  status : Option Nat
  table : SessionTable
  forwarded : Bool
deriving DecidableEq

/-- The `app.post("/messages")` handler of `src/server.ts`: the guard
`if (!sessionId)` rejects an absent parameter and the falsy empty string
alike with 400; an unknown id gets 404; otherwise clear the timer, start a
fresh `SESSION_TIMEOUT_MS` timer, and forward the body to the transport,
answering 500 when `handlePostMessage` throws (`transportOk = false`). -/
def postMessages (sessionId : Option String) (t : SessionTable) (now : Nat)
    (transportOk : Bool) : PostMessagesResult :=
  match sessionId with
  | none => ⟨some 400, t, false⟩
  | some id =>
    if id = "" then ⟨some 400, t, false⟩
    else
      match lookupSession t id with
      | none => ⟨some 404, t, false⟩
      | some _ =>
        let t1 := setDeadline t id (now + SESSION_TIMEOUT_MS)
        if transportOk then ⟨none, t1, true⟩ else ⟨some 500, t1, true⟩

theorem lookupSession_setDeadline (t : SessionTable) (id : String) (d : Nat)
    (h : lookupSession t id ≠ none) :
    lookupSession (setDeadline t id d) id = some d := by
  induction t with
  | nil => simp [lookupSession] at h
  | cons hd tl ih =>
    obtain ⟨k, v⟩ := hd
    by_cases hk : k = id
    · simp [setDeadline, hk, lookupSession]
    · simp [lookupSession, hk] at h
      simp [setDeadline, hk, lookupSession]
      exact ih h

/-- C3: `POST /messages` with a missing `sessionId` parameter (absent, or
the falsy empty string) answers 400 without touching the table; with a
non-empty id absent from the table it answers 404 without touching the
table; with a live id it restarts that session's idle timer at the fixed
30-minute duration and forwards the body to the session's transport, a
transport failure surfacing as HTTP 500.  (A live id is never the empty
string: the transport mints UUID session ids, so the falsy guard only fires
for a genuinely missing parameter.) -/
theorem postMessages_spec (sessionId : Option String) (t : SessionTable)
    (now : Nat) (transportOk : Bool) :
    (sessionId = none ∨ sessionId = some "" →
      postMessages sessionId t now transportOk = ⟨some 400, t, false⟩) ∧
    (∀ id, sessionId = some id → id ≠ "" → lookupSession t id = none →
      postMessages sessionId t now transportOk = ⟨some 404, t, false⟩) ∧
    (∀ id d, sessionId = some id → id ≠ "" → lookupSession t id = some d →
      (postMessages sessionId t now transportOk).table = setDeadline t id (now + SESSION_TIMEOUT_MS) ∧
      lookupSession (postMessages sessionId t now transportOk).table id =
        some (now + SESSION_TIMEOUT_MS) ∧
      (postMessages sessionId t now transportOk).forwarded = true ∧
      (postMessages sessionId t now transportOk).status = (if transportOk then none else some 500)) := by
  refine ⟨?_, ?_, ?_⟩
  · rintro (h | h) <;> subst h <;> rfl
  · intro id hid hne0 hnone
    subst hid
    simp [postMessages, hne0, hnone]
  · intro id d hid hne0 hsome
    subst hid
    have hne : lookupSession t id ≠ none := by simp [hsome]
    cases transportOk <;>
      simp [postMessages, hne0, hsome, lookupSession_setDeadline t id _ hne]

/-- Witness for C3 at concrete inputs: a missing id, an unknown id, and a live
id whose timer is restarted 30 minutes after `now = 1000`. -/
theorem postMessages_spec_witness :
    postMessages none [("a", 5)] 1000 true = ⟨some 400, [("a", 5)], false⟩ ∧
    postMessages (some "b") [("a", 5)] 1000 true = ⟨some 404, [("a", 5)], false⟩ ∧
    (postMessages (some "a") [("a", 5)] 1000 false).table = [("a", 1000 + SESSION_TIMEOUT_MS)] ∧
    lookupSession (postMessages (some "a") [("a", 5)] 1000 false).table "a" =
      some (1000 + SESSION_TIMEOUT_MS) ∧
    (postMessages (some "a") [("a", 5)] 1000 false).status = some 500 := by
  refine ⟨?_, ?_, ?_, ?_, ?_⟩
  · exact (postMessages_spec none [("a", 5)] 1000 true).1 (Or.inl rfl)
  · exact (postMessages_spec (some "b") [("a", 5)] 1000 true).2.1 "b" rfl (by decide) (by decide)
  · have h := (postMessages_spec (some "a") [("a", 5)] 1000 false).2.2 "a" 5 rfl (by decide) (by decide)
    rw [h.1]
    decide
  · exact ((postMessages_spec (some "a") [("a", 5)] 1000 false).2.2 "a" 5 rfl (by decide) (by decide)).2.1
  · exact ((postMessages_spec (some "a") [("a", 5)] 1000 false).2.2 "a" 5 rfl (by decide) (by decide)).2.2.2

/-! ### JavaScript string and number primitives used by the utilities -/

/-- The JavaScript `\s` character class (WhiteSpace and LineTerminator code
points), as used by `String.prototype.trim`, `parseInt`, `parseFloat` and the
regular expressions in `src/utils.ts`. -/
def jsWsChar (c : Char) : Bool :=
  c = ' ' || c = '\t' || c = '\n' || c = '\r' || c = '\x0b' || c = '\x0c' ||
  c = '\u00A0' || c = '\u1680' || ('\u2000' ≤ c && c ≤ '\u200A') ||
  c = '\u2028' || c = '\u2029' || c = '\u202F' || c = '\u205F' ||
  c = '\u3000' || c = '\uFEFF'

/-- The regular-expression class `\d`, that is `[0-9]`. -/
def isDigitChar (c : Char) : Bool :=
  '0' ≤ c && c ≤ '9'

/-- `String.prototype.includes` with a one-character needle. -/
def containsChar (l : List Char) (c : Char) : Bool :=
  l.any (fun a => a == c)

/-- Splits off the maximal leading run of decimal digits. -/
def spanDigits : List Char → List Char × List Char
  | [] => ([], [])
  | c :: rest =>
    if isDigitChar c then
      let (ds, r) := spanDigits rest
      (c :: ds, r)
    else ([], c :: rest)

/-- Numeric value of a decimal digit string. -/
def digitsToNat (ds : List Char) : Nat :=
  ds.foldl (fun a c => a * 10 + (c.toNat - 48)) 0

/-- Hexadecimal digit test, for the `0x` radix detection of `parseInt`. -/
def isHexDigitChar (c : Char) : Bool :=
  isDigitChar c || ('a' ≤ c && c ≤ 'f') || ('A' ≤ c && c ≤ 'F')

/-- Splits off the maximal leading run of hexadecimal digits. -/
def spanHexDigits : List Char → List Char × List Char
  | [] => ([], [])
  | c :: rest =>
    if isHexDigitChar c then
      let (ds, r) := spanHexDigits rest
      (c :: ds, r)
    else ([], c :: rest)

/-- Numeric value of a hexadecimal digit string. -/
def hexDigitsToNat (ds : List Char) : Nat :=
  ds.foldl
    (fun a c =>
      a * 16 + (if isDigitChar c then c.toNat - 48
                else if 'a' ≤ c && c ≤ 'f' then c.toNat - 87 else c.toNat - 55))
    0

/-- JavaScript `parseInt(s)` with automatic radix: skip leading whitespace,
read an optional sign, detect a `0x`/`0X` prefix (radix 16), then take the
maximal run of digits; no digits means `NaN`, modelled as `none`. -/
def jsParseInt (s : String) : Option Int :=
  let l := s.toList.dropWhile jsWsChar
  let signAndRest : Int × List Char :=
    match l with
    | '+' :: r => (1, r)
    | '-' :: r => (-1, r)
    | _ => (1, l)
  match signAndRest.2 with
  | '0' :: 'x' :: r =>
    let (ds, _) := spanHexDigits r
    if ds.isEmpty then none else some (signAndRest.1 * hexDigitsToNat ds)
  | '0' :: 'X' :: r =>
    let (ds, _) := spanHexDigits r
    if ds.isEmpty then none else some (signAndRest.1 * hexDigitsToNat ds)
  | rest =>
    let (ds, _) := spanDigits rest
    if ds.isEmpty then none else some (signAndRest.1 * digitsToNat ds)

/-! ### `parseTimeRangeToHours` (`src/utils.ts` lines 64-72, inlined at
`src/server.ts` lines 398-400) -/

/-- `parseTimeRangeToHours`: if the token contains `h`, `parseInt` it as hours;
else if it contains `d`, `parseInt` it and multiply by 24; else 24.  A `NaN`
result of `parseInt` (`none` here) propagates silently, with no error. -/
def parseTimeRangeToHours (timeRange : String) : Option Int :=
  if containsChar timeRange.toList 'h' then jsParseInt timeRange
  else if containsChar timeRange.toList 'd' then (jsParseInt timeRange).map (fun n => n * 24)
  else some 24

/-- C7: the statistics time-range grammar maps a token containing `h` to its
leading integer as hours, a token containing `d` but not `h` to its leading
integer times 24, and every other token to 24 hours; a malformed token raises
no validation error, it silently yields the non-numeric `NaN` (`none`). -/
theorem parseTimeRangeToHours_spec :
    (∀ (t : String) (n : Int), containsChar t.toList 'h' = true → jsParseInt t = some n →
      parseTimeRangeToHours t = some n) ∧
    (∀ (t : String) (n : Int), containsChar t.toList 'h' = false →
      containsChar t.toList 'd' = true → jsParseInt t = some n →
      parseTimeRangeToHours t = some (n * 24)) ∧
    (∀ t : String, containsChar t.toList 'h' = false → containsChar t.toList 'd' = false →
      parseTimeRangeToHours t = some 24) ∧
    (∀ t : String, containsChar t.toList 'h' = true → jsParseInt t = none →
      parseTimeRangeToHours t = none) ∧
    parseTimeRangeToHours "1h" = some 1 ∧
    parseTimeRangeToHours "24h" = some 24 ∧
    parseTimeRangeToHours "7d" = some 168 ∧
    parseTimeRangeToHours "30d" = some 720 ∧
    parseTimeRangeToHours "xyz" = some 24 := by
  refine ⟨?_, ?_, ?_, ?_, ?_, ?_, ?_, ?_, ?_⟩
  · intro t n hh hp
    simp only [String.toList] at hh
    simp [parseTimeRangeToHours, String.toList, hh, hp]
  · intro t n hh hd hp
    simp only [String.toList] at hh hd
    simp [parseTimeRangeToHours, String.toList, hh, hd, hp]
  · intro t hh hd
    simp only [String.toList] at hh hd
    simp [parseTimeRangeToHours, String.toList, hh, hd]
  · intro t hh hp
    simp only [String.toList] at hh
    simp [parseTimeRangeToHours, String.toList, hh, hp]
  · decide
  · decide
  · decide
  · decide
  · decide

/-- Witness for C7 at concrete tokens: `5h` gives 5 hours, `2d` gives 48
hours, `banana` falls back to 24, and the malformed `hello` yields `NaN`. -/
theorem parseTimeRangeToHours_spec_witness :
    parseTimeRangeToHours "5h" = some 5 ∧
    parseTimeRangeToHours "2d" = some (2 * 24) ∧
    parseTimeRangeToHours "banana" = some 24 ∧
    parseTimeRangeToHours "hello" = none :=
  ⟨parseTimeRangeToHours_spec.1 "5h" 5 (by decide) (by decide),
   parseTimeRangeToHours_spec.2.1 "2d" 2 (by decide) (by decide) (by decide),
   parseTimeRangeToHours_spec.2.2.1 "banana" (by decide) (by decide),
   parseTimeRangeToHours_spec.2.2.2.1 "hello" (by decide) (by decide)⟩

/-! ### `get_sample_logs` (`src/server.ts` lines 200-209) -/

/-- `Math.min(limit, 100)` from the `get_sample_logs` query template. -/
def sampleLogsLimit (lim : Int) : Int :=
  min lim 100

/-- The query template of `get_sample_logs` (`src/server.ts` line 204). -/
def buildSampleLogsQuery (sourceName : String) (lim : Int) : String :=
  "SELECT timestamp, event_message, level, id, metadata FROM `" ++ sourceName ++
    "` WHERE timestamp >= TIMESTAMP_SUB(CURRENT_TIMESTAMP(), INTERVAL 7 DAY) ORDER BY timestamp DESC LIMIT " ++
    toString (sampleLogsLimit lim)

/-- The `get_sample_logs` handler entry: the zod schema defaults an omitted
`limit` to 5 (`src/server.ts` line 198). -/
def getSampleLogsQuery (sourceName : String) (lim : Option Int) : String :=
  buildSampleLogsQuery sourceName (lim.getD 5)

/-- C8: the query built by `get_sample_logs` selects exactly the five named
columns over the last 7 days, newest first, with a LIMIT equal to the minimum
of the requested limit and 100 — never above 100 — and a default limit of 5
when the parameter is omitted. -/
theorem get_sample_logs_query_spec :
    (∀ (src : String) (lim : Int),
      sampleLogsLimit lim ≤ 100 ∧
      (100 ≤ lim → sampleLogsLimit lim = 100) ∧
      (lim ≤ 100 → sampleLogsLimit lim = lim) ∧
      buildSampleLogsQuery src lim =
        "SELECT timestamp, event_message, level, id, metadata FROM `" ++ src ++
          "` WHERE timestamp >= TIMESTAMP_SUB(CURRENT_TIMESTAMP(), INTERVAL 7 DAY) ORDER BY timestamp DESC LIMIT " ++
          toString (sampleLogsLimit lim)) ∧
    (∀ src : String, getSampleLogsQuery src none = buildSampleLogsQuery src 5) ∧
    getSampleLogsQuery "app.logs" (some 9999) =
      "SELECT timestamp, event_message, level, id, metadata FROM `app.logs` WHERE timestamp >= TIMESTAMP_SUB(CURRENT_TIMESTAMP(), INTERVAL 7 DAY) ORDER BY timestamp DESC LIMIT 100" ∧
    getSampleLogsQuery "app.logs" none =
      "SELECT timestamp, event_message, level, id, metadata FROM `app.logs` WHERE timestamp >= TIMESTAMP_SUB(CURRENT_TIMESTAMP(), INTERVAL 7 DAY) ORDER BY timestamp DESC LIMIT 5" := by
  refine ⟨?_, ?_, ?_, ?_⟩
  · intro src lim
    refine ⟨min_le_right lim 100, ?_, ?_, rfl⟩
    · intro h
      simpa [sampleLogsLimit] using h
    · intro h
      simpa [sampleLogsLimit] using h
  · intro src
    rfl
  · rfl
  · rfl

/-- Witness for C8: the hypotheses of the capping clauses discharged at the
concrete limits 9999 and 3. -/
theorem get_sample_logs_query_spec_witness :
    sampleLogsLimit 9999 = 100 ∧ sampleLogsLimit 3 = 3 :=
  ⟨(get_sample_logs_query_spec.1 "s" 9999).2.1 (by decide),
   (get_sample_logs_query_spec.1 "s" 3).2.2.1 (by decide)⟩

/-! ### `query_logs_formatted` (`src/server.ts` lines 255-281) -/

/-- The `.` of a JS regular expression: any character but a line terminator. -/
def jsDotChar (c : Char) : Bool :=
  !(c = '\n' || c = '\r' || c = '\u2028' || c = '\u2029')

/-- Case-insensitive literal match (ASCII canonicalization, as the `i` flag):
returns the input remaining after the literal. -/
def matchLitCI : List Char → List Char → Option (List Char)
  | [], s => some s
  | _ :: _, [] => none
  | p :: ps, c :: cs => if p.toLower = c.toLower then matchLitCI ps cs else none

/-- Drops the maximal run of `\s` characters. -/
def dropWs (l : List Char) : List Char :=
  l.dropWhile jsWsChar

/-- Length of the maximal leading run of `\s` characters. -/
def wsRunLen (l : List Char) : Nat :=
  (l.takeWhile jsWsChar).length

/-- The `\s+FROM` tail after the lazy group: because `F` is not whitespace the
`\s+` run is forced to be the entire maximal run, which must be non-empty. -/
def wsThenFrom (s : List Char) : Bool :=
  match s with
  | [] => false
  | c :: _ => jsWsChar c && (matchLitCI "from".toList (dropWs s)).isSome

/-- The lazy group `(.+?)`: grown one character at a time (shortest first),
testing the `\s+FROM` tail after every extension; `accRev` holds the group so
far, reversed. -/
def lazyGroup : List Char → List Char → Option (List Char)
  | _, [] => none
  | accRev, c :: rest =>
    if wsThenFrom (c :: rest) then some accRev.reverse
    else if jsDotChar c then lazyGroup (c :: accRev) rest
    else none

/-- The group must take at least one character (matched by `.`) before the
tail is first tried. -/
def startGroup : List Char → Option (List Char)
  | [] => none
  | c :: rest => if jsDotChar c then lazyGroup [c] rest else none

/-- The first `\s+` is greedy: its lengths are tried from the maximal run down
to one, the group search running after each choice. -/
def tryWsLens : Nat → List Char → Option (List Char)
  | 0, _ => none
  | i + 1, s =>
    match startGroup (s.drop (i + 1)) with
    | some g => some g
    | none => tryWsLens i s

/-- The pattern after the literal `SELECT`: `\s+` (greedy) then `(.+?)\s+FROM`. -/
def afterSelect (s : List Char) : Option (List Char) :=
  tryWsLens (wsRunLen s) s

/-- Leftmost search for `/SELECT\s+(.+?)\s+FROM/i`: every start position is
tried in order, as a single non-global `match` does. -/
def findSelectFrom : List Char → Option (List Char)
  | [] => none
  | c :: rest =>
    match matchLitCI "select".toList (c :: rest) with
    | some r =>
      match afterSelect r with
      | some g => some g
      | none => findSelectFrom rest
    | none => findSelectFrom rest

/-- `sql.match(/SELECT\s+(.+?)\s+FROM/i)` (`src/server.ts` line 258): the
captured projection clause, when the pattern matches. -/
def selectMatch (sql : String) : Option String :=
  (findSelectFrom sql.toList).map fun g => String.mk g

/-- `String.prototype.trim` on the character-list level. -/
def jsTrimL (l : List Char) : List Char :=
  ((l.dropWhile jsWsChar).reverse.dropWhile jsWsChar).reverse

/-- `String.prototype.trim`. -/
def jsTrim (s : String) : String :=
  String.mk (jsTrimL s.toList)

/-- Outcome of one `query_logs_formatted` invocation: either the tool-level
error payload produced by the `catch` (`isError: true`, no HTTP request), or
the backend call `executeQuery(formattedSql)` with the query it sends. -/
inductive QlfOutcome where
  | validationError (msg : String)
  | backendQuery (sql : String)
deriving DecidableEq

/-- Error text thrown when no SELECT...FROM clause parses (line 260). -/
def qlfParseErrMsg : String :=
  "Invalid SQL: Could not parse SELECT clause. Must use explicit columns, not SELECT *"

/-- Error text thrown for a wildcard projection (line 267). -/
def qlfWildcardMsg : String :=
  "SELECT * is not allowed. Please specify columns explicitly (e.g., SELECT timestamp, event_message, level FROM ...)"

/-- The wrapped query of `src/server.ts` lines 272-279, with the exact
newlines and indentation of the template literal. -/
def buildFormattedSql (userColumns sql : String) : String :=
  "\n          SELECT \n            " ++ userColumns ++
    ",\n            FORMAT_TIMESTAMP(\x27%Y-%m-%d %H:%M:%S\x27, timestamp) as formatted_timestamp\n          FROM (\n            " ++
    sql ++ "\n          )\n        "

/-- The `query_logs_formatted` handler: extract the projection with the
regular expression, reject an unparsable clause or a projection containing
`*` (`userColumns === \x27*\x27 || userColumns.includes(\x27*\x27)`), else
wrap the query and call the backend. -/
def queryLogsFormatted (sql : String) : QlfOutcome :=
  match selectMatch sql with
  | none => .validationError qlfParseErrMsg
  | some g =>
    let userColumns := jsTrim g
    if userColumns = "*" || containsChar userColumns.toList '*' then
      .validationError qlfWildcardMsg
    else
      .backendQuery (buildFormattedSql userColumns sql)

/-- C4: a wildcard projection — in particular `SELECT * FROM \x60src\x60` —
makes `query_logs_formatted` return the tool-level validation error and issue
no backend call, and SQL with no parsable SELECT...FROM clause returns the
distinct client-facing parse error, likewise without a backend call. -/
theorem query_logs_formatted_wildcard_rejection :
    (∀ (sql g : String), selectMatch sql = some g →
      containsChar (jsTrim g).toList '*' = true →
      queryLogsFormatted sql = .validationError qlfWildcardMsg) ∧
    (∀ sql : String, selectMatch sql = none →
      queryLogsFormatted sql = .validationError qlfParseErrMsg) ∧
    qlfParseErrMsg ≠ qlfWildcardMsg ∧
    queryLogsFormatted "SELECT * FROM `src`" = .validationError qlfWildcardMsg := by
  refine ⟨?_, ?_, ?_, ?_⟩
  · intro sql g hm hstar
    simp only [String.toList] at hstar
    simp [queryLogsFormatted, hm, String.toList, hstar]
  · intro sql hm
    simp [queryLogsFormatted, hm]
  · decide
  · decide

/-- Witness for C4: the quantified clauses applied at a projection containing
a wildcard among named columns and at SQL with no SELECT...FROM clause. -/
theorem query_logs_formatted_wildcard_rejection_witness :
    queryLogsFormatted "SELECT a, * FROM t" = .validationError qlfWildcardMsg ∧
    queryLogsFormatted "no projection here" = .validationError qlfParseErrMsg :=
  ⟨query_logs_formatted_wildcard_rejection.1 "SELECT a, * FROM t" "a, *" (by decide) (by decide),
   query_logs_formatted_wildcard_rejection.2.1 "no projection here" (by decide)⟩

/-- C10: the wildcard check fires on a `*` anywhere in the extracted
projection — aggregate projections such as `COUNT(*)` and qualified wildcards
such as `t.*` included — and every such input ends in the validation error
with no backend call, while a star-free projection does proceed to the
backend. -/
theorem query_logs_formatted_star_anywhere :
    queryLogsFormatted "SELECT COUNT(*) FROM `x`" = .validationError qlfWildcardMsg ∧
    queryLogsFormatted "SELECT t.* FROM `x`" = .validationError qlfWildcardMsg ∧
    queryLogsFormatted "SELECT a, b, COUNT(*) AS c FROM `x`" = .validationError qlfWildcardMsg ∧
    selectMatch "SELECT COUNT(*) FROM `x`" = some "COUNT(*)" ∧
    selectMatch "SELECT t.* FROM `x`" = some "t.*" ∧
    queryLogsFormatted "SELECT a, b FROM `x`" =
      .backendQuery (buildFormattedSql "a, b" "SELECT a, b FROM `x`") ∧
    (∀ (sql g : String), selectMatch sql = some g →
      containsChar (jsTrim g).toList '*' = true →
      ¬ ∃ q, queryLogsFormatted sql = .backendQuery q) := by
  refine ⟨by decide, by decide, by decide, by decide, by decide, by decide, ?_⟩
  intro sql g hm hstar
  simp only [String.toList] at hstar
  simp [queryLogsFormatted, hm, String.toList, hstar]

/-- Witness for C10: the quantified no-backend-call clause applied at an
aggregate projection. -/
theorem query_logs_formatted_star_anywhere_witness :
    ¬ ∃ q, queryLogsFormatted "SELECT sum(*) FROM `y`" = QlfOutcome.backendQuery q :=
  query_logs_formatted_star_anywhere.2.2.2.2.2.2 "SELECT sum(*) FROM `y`" "sum(*)"
    (by decide) (by decide)

/-! ### `parseTimeToTimestamp` (`src/utils.ts` lines 10-59, inlined at
`src/server.ts` lines 464-533)

The function returns a BigQuery timestamp expression as a string; the
embedding returns it as the AST `TsExpr`, whose constructors correspond one
to one with the three string shapes the source can build
(`CURRENT_TIMESTAMP()`, `TIMESTAMP_SUB(CURRENT_TIMESTAMP(), INTERVAL n U)`,
and `TIMESTAMP(<ISO instant>)`; the ISO rendering of a millisecond value is
injective, so the AST determines the emitted text).

`new Date(timeStr)` is modelled by `jsDateParse` as the V8 engine of the
node:20 image runs it: first the ECMAScript Date Time String Format, then
V8's legacy fallback, which notably parses a bare numeral string (leading
zeros skipped, at most 9 significant digits read) as a month of 2001 when
1-12, an invalid bare day when 13-31, and a year otherwise, with two-digit
years windowed to 1950-2049 — so `new Date("42")` is 2042-01-01.  The host
time zone is taken to be UTC; legacy formats other than a single numeral are
not reachable from the verified claims and are treated as unparsable.
`parseFloat` is modelled exactly, including the `Infinity` keyword. -/

/-- `String.prototype.toLowerCase` on the character-list level (ASCII case
mapping, which covers every character the parser compares against). -/
def jsToLowerL (l : List Char) : List Char :=
  l.map Char.toLower

/-- Case-sensitive literal match: the input remaining after the literal. -/
def matchLit : List Char → List Char → Option (List Char)
  | [], s => some s
  | _ :: _, [] => none
  | p :: ps, c :: cs => if p = c then matchLit ps cs else none

/-- The alternation `(second|minute|hour|day|week|month|year)`, tried in
pattern order against the already-lowercased input. -/
def matchUnitAlt (s : List Char) : Option (String × List Char) :=
  match matchLit "second".toList s with
  | some r => some ("second", r)
  | none =>
    match matchLit "minute".toList s with
    | some r => some ("minute", r)
    | none =>
      match matchLit "hour".toList s with
      | some r => some ("hour", r)
      | none =>
        match matchLit "day".toList s with
        | some r => some ("day", r)
        | none =>
          match matchLit "week".toList s with
          | some r => some ("week", r)
          | none =>
            match matchLit "month".toList s with
            | some r => some ("month", r)
            | none =>
              match matchLit "year".toList s with
              | some r => some ("year", r)
              | none => none

/-- The `intervalMap` record of `src/utils.ts` lines 17-25; a lookup with a
key outside the record would be `undefined` in JS (unreachable here, since
the unit always comes from the alternation). -/
def intervalMap : String → String
  | "second" => "SECOND"
  | "minute" => "MINUTE"
  | "hour" => "HOUR"
  | "day" => "DAY"
  | "week" => "WEEK"
  | "month" => "MONTH"
  | "year" => "YEAR"
  | _ => "undefined"

/-- `/(\d+)\s*(second|minute|hour|day|week|month|year)s?\s*ago/i` anchored at
the start of the (lowercased) input: maximal digit run, forced-maximal `\s*`
runs (no unit starts with whitespace, `ago` starts with `a`), the unit
alternation, and the greedy optional `s` with its backtracking alternative. -/
def matchAgoAt (s : List Char) : Option (Nat × String) :=
  let (ds, r1) := spanDigits s
  if ds.isEmpty then none
  else
    match matchUnitAlt (dropWs r1) with
    | none => none
    | some (unit, r3) =>
      match r3 with
      | 's' :: r4 =>
        if (matchLit "ago".toList (dropWs r4)).isSome then some (digitsToNat ds, unit)
        else if (matchLit "ago".toList (dropWs r3)).isSome then some (digitsToNat ds, unit)
        else none
      | _ =>
        if (matchLit "ago".toList (dropWs r3)).isSome then some (digitsToNat ds, unit)
        else none

/-- Unanchored search for the `ago` pattern: every start position in order. -/
def agoSearch : List Char → Option (Nat × String)
  | [] => none
  | c :: rest =>
    match matchAgoAt (c :: rest) with
    | some r => some r
    | none => agoSearch rest

/-- `/last\s+(\d+)\s*(second|minute|hour|day|week|month|year)s?/i` anchored at
the start: the literal `last`, at least one whitespace, the digit run, `\s*`,
the unit; the trailing `s?` is at the end of the pattern and cannot fail. -/
def matchLastAt (s : List Char) : Option (Nat × String) :=
  match matchLit "last".toList s with
  | none => none
  | some r1 =>
    match r1 with
    | [] => none
    | c :: _ =>
      if jsWsChar c then
        let (ds, r3) := spanDigits (dropWs r1)
        if ds.isEmpty then none
        else
          match matchUnitAlt (dropWs r3) with
          | none => none
          | some (unit, _) => some (digitsToNat ds, unit)
      else none

/-- Unanchored search for the `last` pattern. -/
def lastSearch : List Char → Option (Nat × String)
  | [] => none
  | c :: rest =>
    match matchLastAt (c :: rest) with
    | some r => some r
    | none => lastSearch rest

/-! #### `new Date(timeStr)`: the ECMAScript Date Time String Format -/

/-- Exactly `n` decimal digits, returned with the remaining input. -/
def takeDigits : Nat → List Char → Option (List Char × List Char)
  | 0, l => some ([], l)
  | _ + 1, [] => none
  | n + 1, c :: rest =>
    if isDigitChar c then
      match takeDigits n rest with
      | some (ds, r) => some (c :: ds, r)
      | none => none
    else none

/-- Gregorian leap year (proleptic). -/
def isLeapYear (y : Int) : Bool :=
  (y % 4 = 0 && !(y % 100 = 0)) || y % 400 = 0

/-- Days in a month of the proleptic Gregorian calendar. -/
def daysInMonth (y : Int) (m : Nat) : Nat :=
  if m = 2 then (if isLeapYear y then 29 else 28)
  else if m = 4 || m = 6 || m = 9 || m = 11 then 30
  else 31

/-- Days from the Unix epoch to the civil date `y-m-d` (standard
era/year-of-era computation over the proleptic Gregorian calendar; Lean's
`Int` division rounds toward negative infinity for positive divisors, which
is the flooring the era computation requires). -/
def daysFromCivil (y : Int) (m d : Nat) : Int :=
  let y2 : Int := if m ≤ 2 then y - 1 else y
  let era : Int := y2 / 400
  let yoe : Int := y2 - era * 400
  let mp : Nat := (m + 9) % 12
  let doy : Int := (153 * (mp : Int) + 2) / 5 + (d : Int) - 1
  let doe : Int := yoe * 365 + yoe / 4 - yoe / 100 + doy
  era * 146097 + doe - 719468

/-- The `TimeClip` range: a time value is valid iff its magnitude is at most
8.64e15 milliseconds. -/
def maxDateMs : Int := 8640000000000000

/-- Milliseconds since the epoch of a civil date and time with a UTC-offset
given in minutes. -/
def civilMs (y : Int) (mo d hh mi ss ms : Nat) (offsetMin : Int) : Int :=
  daysFromCivil y mo d * 86400000 +
    ((hh * 3600000 + mi * 60000 + ss * 1000 + ms : Nat) : Int) - offsetMin * 60000

/-- The year of the format: `YYYY` or the expanded `+YYYYYY` / `-YYYYYY`. -/
def parseYearPart (l : List Char) : Option (Int × List Char) :=
  match l with
  | c :: r =>
    if c = '+' then
      match takeDigits 6 r with
      | some (ds, rest) => some ((digitsToNat ds : Int), rest)
      | none => none
    else if c = '-' then
      match takeDigits 6 r with
      | some (ds, rest) => some (-(digitsToNat ds : Int), rest)
      | none => none
    else
      match takeDigits 4 (c :: r) with
      | some (ds, rest) => some ((digitsToNat ds : Int), rest)
      | none => none
  | [] => none

/-- The optional `-MM` and `-MM-DD` of the date part; omitted parts default
to month 1 and day 1. -/
def parseMonthDay (l : List Char) : Option (Nat × Nat × List Char) :=
  match l with
  | c :: r =>
    if c = '-' then
      match takeDigits 2 r with
      | none => none
      | some (mds, r2) =>
        match r2 with
        | c2 :: r3 =>
          if c2 = '-' then
            match takeDigits 2 r3 with
            | none => none
            | some (dds, r4) => some (digitsToNat mds, digitsToNat dds, r4)
          else some (digitsToNat mds, 1, c2 :: r3)
        | [] => some (digitsToNat mds, 1, [])
    else some (1, 1, c :: r)
  | [] => some (1, 1, [])

/-- The optional fraction `.d`, `.dd` or `.ddd` after the seconds, scaled to
milliseconds. -/
def parseFraction : List Char → Nat × List Char
  | '.' :: r =>
    let (ds, rest) := spanDigits ('.' :: r).tail
    match ds with
    | [] => (0, '.' :: r)
    | [a] => ((a.toNat - 48) * 100, rest)
    | [a, b] => ((a.toNat - 48) * 100 + (b.toNat - 48) * 10, rest)
    | a :: b :: c :: _ => ((a.toNat - 48) * 100 + (b.toNat - 48) * 10 + (c.toNat - 48), rest)
  | l => (0, l)

/-- The time-zone offset: `Z`, or `+HH:mm` / `-HH:mm`, in minutes; `none` for
an empty rest means the time has no offset designator (taken as UTC, the
modelled host zone). -/
def parseOffset : List Char → Option Int
  | [] => some 0
  | ['Z'] => some 0
  | '+' :: r =>
    match takeDigits 2 r with
    | some (hs, ':' :: r2) =>
      match takeDigits 2 r2 with
      | some (ms, []) => some ((digitsToNat hs * 60 + digitsToNat ms : Nat) : Int)
      | _ => none
    | _ => none
  | '-' :: r =>
    match takeDigits 2 r with
    | some (hs, ':' :: r2) =>
      match takeDigits 2 r2 with
      | some (ms, []) => some (-((digitsToNat hs * 60 + digitsToNat ms : Nat) : Int))
      | _ => none
    | _ => none
  | _ => none

/-- The time part after `T`: `HH:mm`, optional `:ss`, optional fraction, then
the offset; validated against the 24-hour clock (`24:00:00.000` allowed). -/
def parseTimePart (y : Int) (mo d : Nat) (l : List Char) : Option Int :=
  match takeDigits 2 l with
  | none => none
  | some (hhds, r1) =>
    match r1 with
    | ':' :: r2 =>
      match takeDigits 2 r2 with
      | none => none
      | some (mids, r3) =>
        let secAndRest : Nat × List Char :=
          match r3 with
          | ':' :: r4 =>
            match takeDigits 2 r4 with
            | some (ssds, r5) => (digitsToNat ssds, r5)
            | none => (0, ':' :: r4)
          | _ => (0, r3)
        let hh := digitsToNat hhds
        let mi := digitsToNat mids
        let ss := secAndRest.1
        let afterSec := secAndRest.2
        if (match r3 with | ':' :: r4 => (takeDigits 2 r4).isNone | _ => false) then none
        else
          let (ms, afterFrac) := parseFraction afterSec
          match parseOffset afterFrac with
          | none => none
          | some off =>
            if hh ≤ 23 && mi ≤ 59 && ss ≤ 59 then
              some (civilMs y mo d hh mi ss ms off)
            else if hh = 24 && mi = 0 && ss = 0 && ms = 0 then
              some (civilMs y mo d 24 0 0 0 off)
            else none
    | _ => none

/-- The specification-defined Date Time String Format component of
`new Date(timeStr)`, returning the parsed time value in ms; `none` is an
invalid date (`NaN`), including out-of-range values rejected by `TimeClip`. -/
def isoDateMs (l : List Char) : Option Int :=
  match parseYearPart l with
  | none => none
  | some (y, r1) =>
    match parseMonthDay r1 with
    | none => none
    | some (mo, d, r2) =>
      if mo < 1 || 12 < mo || d < 1 || daysInMonth y mo < d then none
      else
        match r2 with
        | [] =>
          let ms := civilMs y mo d 0 0 0 0 0
          if ms.natAbs ≤ maxDateMs.natAbs then some ms else none
        | c :: r3 =>
          if c = 'T' then
            match parseTimePart y mo d r3 with
            | none => none
            | some ms => if ms.natAbs ≤ maxDateMs.natAbs then some ms else none
          else none

/-- The V8 (node:20) legacy date fallback, modelled for the inputs the
cascade can reach: a string that is one unsigned numeral.  V8 skips leading
zeros and reads at most 9 significant digits; the resulting number `n` is a
month of the default year 2001 when 1-12, invalid when 13-31 (a bare day),
and otherwise a year, with two-digit years windowed to 1950-2049; the date is
then midnight in the host zone (UTC here) and `TimeClip` applies.  Strings
that are not a single numeral use further legacy formats not reachable from
the claims and are treated as unparsable. -/
def legacyNumeralMs (l : List Char) : Option Int :=
  if l ≠ [] ∧ l.all isDigitChar then
    let n := digitsToNat ((l.dropWhile (fun c => c = '0')).take 9)
    if 1 ≤ n ∧ n ≤ 12 then
      let ms := civilMs 2001 n 1 0 0 0 0 0
      if ms.natAbs ≤ maxDateMs.natAbs then some ms else none
    else if 13 ≤ n ∧ n ≤ 31 then none
    else
      let y : Int := if n < 50 then 2000 + n else if n < 100 then 1900 + n else n
      let ms := civilMs y 1 1 0 0 0 0 0
      if ms.natAbs ≤ maxDateMs.natAbs then some ms else none
  else none

/-- `new Date(timeStr)`: V8 first tries the specification-defined format,
then the legacy fallback. -/
def jsDateParseL (l : List Char) : Option Int :=
  match isoDateMs l with
  | some ms => some ms
  | none => legacyNumeralMs l

/-- `new Date(timeStr)` on strings (see the section comment for the modelled
scope). -/
def jsDateParse (s : String) : Option Int :=
  jsDateParseL s.toList

/-- The exponent part of a decimal literal for `parseFloat`: an ignored,
digitless exponent contributes factor one. -/
def parseExpPart : List Char → Int
  | '+' :: rr =>
    let (ds, _) := spanDigits rr
    if ds.isEmpty then 0 else (digitsToNat ds : Int)
  | '-' :: rr =>
    let (ds, _) := spanDigits rr
    if ds.isEmpty then 0 else -(digitsToNat ds : Int)
  | r =>
    let (ds, _) := spanDigits r
    if ds.isEmpty then 0 else (digitsToNat ds : Int)

/-- A JavaScript number as `parseFloat` can produce it: a finite value (kept
exact in `Rat`) or one of the infinities (from the `Infinity` literal). -/
inductive JsNum where
  | finite (q : Rat)
  | posInf
  | negInf
deriving DecidableEq

/-- JavaScript `parseFloat`: skip leading whitespace, optional sign, then the
`Infinity` keyword or the longest prefix shaped
`digits [. digits] [e|E [sign] digits]`; no digit at all is `NaN` (`none`). -/
def jsParseFloat (s : String) : Option JsNum :=
  let l := s.toList.dropWhile jsWsChar
  let signAndRest : Bool × List Char :=
    match l with
    | c :: r => if c = '+' then (false, r) else if c = '-' then (true, r) else (false, c :: r)
    | [] => (false, [])
  match matchLit "Infinity".toList signAndRest.2 with
  | some _ => some (if signAndRest.1 then .negInf else .posInf)
  | none =>
    let (ints, l2) := spanDigits signAndRest.2
    let fracAndRest : List Char × List Char :=
      match l2 with
      | c :: r => if c = '.' then spanDigits r else ([], c :: r)
      | [] => ([], [])
    if ints.isEmpty && fracAndRest.1.isEmpty then none
    else
      let mant : Rat :=
        (digitsToNat ints : Rat) + (digitsToNat fracAndRest.1 : Rat) / (10 : Rat) ^ fracAndRest.1.length
      let e : Int :=
        match fracAndRest.2 with
        | c :: r => if c = 'e' then parseExpPart r else if c = 'E' then parseExpPart r else 0
        | [] => 0
      some (.finite ((if signAndRest.1 then (-1 : Rat) else 1) * mant * (10 : Rat) ^ e))

/-- The BigQuery timestamp expression returned by `parseTimeToTimestamp`. -/
inductive TsExpr where
  | currentTimestamp
  | sub (amount : Nat) (unit : String)
  | literalMs (ms : Int)
deriving DecidableEq

deriving instance DecidableEq for Except

/-- The error thrown at `src/utils.ts` line 56 for an unrecognized input. -/
def invalidTimeMsg (timeStr : String) : String :=
  "Invalid time format: " ++ timeStr ++
    ". Use ISO 8601, relative time (e.g., \x271 hour ago\x27), or Unix timestamp."

/-- The body of `parseTimeToTimestamp` after `lower` has been computed; the
date and float fallbacks run on the original `timeStr`, exactly as in the
source.  The unix branch models
`new Date(unixSeconds * 1000).toISOString()`, whose `RangeError: Invalid
time value` for an out-of-range time value escapes the function. -/
def parseAfterLower (lowerL : List Char) (timeStr : String) : Except String TsExpr :=
  if lowerL = "now".toList ∨ lowerL = "current".toList then .ok .currentTimestamp
  else
    match agoSearch lowerL with
    | some (n, unit) => .ok (.sub n (intervalMap unit))
    | none =>
      match lastSearch lowerL with
      | some (n, unit) => .ok (.sub n (intervalMap unit))
      | none =>
        if lowerL = "yesterday".toList ∨ lowerL = "today".toList then .ok (.sub 1 "DAY")
        else
          match jsDateParse timeStr with
          | some ms => .ok (.literalMs ms)
          | none =>
            match jsParseFloat timeStr with
            | some (.finite v) =>
              if 0 < v ∧ 946684800 < v then
                if |v * 1000| ≤ (maxDateMs : Rat) then .ok (.literalMs ⌊v * 1000⌋)
                else .error "Invalid time value"
              else .error (invalidTimeMsg timeStr)
            | some .posInf => .error "Invalid time value"
            | some .negInf => .error (invalidTimeMsg timeStr)
            | none => .error (invalidTimeMsg timeStr)

/-- `parseTimeToTimestamp` (`src/utils.ts` line 10): lowercase and trim, then
the branch cascade. -/
def parseTimeToTimestamp (timeStr : String) : Except String TsExpr :=
  parseAfterLower (jsTrimL (jsToLowerL timeStr.toList)) timeStr

/-! #### Digit-string lemmas for the unix-seconds branch -/

theorem isDigitChar_bounds {c : Char} (h : isDigitChar c = true) : '0' ≤ c ∧ c ≤ '9' := by
  simpa [isDigitChar, Bool.and_eq_true, decide_eq_true_eq] using h

theorem digit_toNat_le {c : Char} (h : c ≤ '9') : c.toNat ≤ 57 :=
  UInt32.toNat_le_of_le (by decide) h

theorem isDigitChar_toLower {c : Char} (h : isDigitChar c = true) : c.toLower = c := by
  have hle : c.toNat ≤ 57 := digit_toNat_le (isDigitChar_bounds h).2
  unfold Char.toLower
  rw [if_neg]
  intro hc
  omega

theorem isDigitChar_not_ws {c : Char} (h : isDigitChar c = true) : jsWsChar c = false := by
  obtain ⟨h0, h9⟩ := isDigitChar_bounds h
  by_contra hw
  simp only [Bool.not_eq_false] at hw
  simp only [jsWsChar, Bool.or_eq_true, Bool.and_eq_true, decide_eq_true_eq] at hw
  rcases hw with ((((((((((((((hw | hw) | hw) | hw) | hw) | hw) | hw) | hw) | ⟨hw1, hw2⟩) | hw) | hw) | hw) | hw) | hw) | hw) <;>
    first
      | (subst hw; simp [isDigitChar] at h)
      | (exact absurd (le_trans hw1 h9) (by decide))

theorem dropWhile_eq_self_of_all {p : Char → Bool} {l : List Char}
    (h : ∀ c ∈ l, p c = false) : l.dropWhile p = l := by
  cases l with
  | nil => rfl
  | cons c cs => simp [List.dropWhile_cons, h c (by simp)]

theorem jsToLowerL_digits {l : List Char} (h : ∀ c ∈ l, isDigitChar c = true) :
    jsToLowerL l = l := by
  unfold jsToLowerL
  induction l with
  | nil => rfl
  | cons c cs ih =>
    simp only [List.map_cons]
    rw [isDigitChar_toLower (h c (by simp)), ih (fun x hx => h x (by simp [hx]))]

theorem jsTrimL_digits {l : List Char} (h : ∀ c ∈ l, isDigitChar c = true) :
    jsTrimL l = l := by
  unfold jsTrimL
  have h1 : ∀ c ∈ l, jsWsChar c = false := fun c hc => isDigitChar_not_ws (h c hc)
  rw [dropWhile_eq_self_of_all h1,
    dropWhile_eq_self_of_all (fun c hc => h1 c (List.mem_reverse.mp hc)),
    List.reverse_reverse]

theorem spanDigits_all {l : List Char} (h : ∀ c ∈ l, isDigitChar c = true) :
    spanDigits l = (l, []) := by
  induction l with
  | nil => rfl
  | cons c cs ih =>
    simp [spanDigits, h c (by simp), ih (fun x hx => h x (by simp [hx]))]

theorem matchUnitAlt_nil : matchUnitAlt [] = none := rfl

theorem matchAgoAt_digits {l : List Char} (h : ∀ c ∈ l, isDigitChar c = true) :
    matchAgoAt l = none := by
  unfold matchAgoAt
  rw [spanDigits_all h]
  simp [dropWs, matchUnitAlt_nil]

theorem agoSearch_digits {l : List Char} (h : ∀ c ∈ l, isDigitChar c = true) :
    agoSearch l = none := by
  induction l with
  | nil => rfl
  | cons c cs ih =>
    unfold agoSearch
    rw [matchAgoAt_digits h]
    exact ih (fun x hx => h x (by simp [hx]))

theorem matchLastAt_digits {l : List Char} (h : ∀ c ∈ l, isDigitChar c = true) :
    matchLastAt l = none := by
  cases l with
  | nil => rfl
  | cons c cs =>
    have hc := h c (by simp)
    have hl : ¬('l' = c) := by
      intro e
      rw [← e] at hc
      simp [isDigitChar] at hc
    unfold matchLastAt
    simp [matchLit, hl]

theorem lastSearch_digits {l : List Char} (h : ∀ c ∈ l, isDigitChar c = true) :
    lastSearch l = none := by
  induction l with
  | nil => rfl
  | cons c cs ih =>
    unfold lastSearch
    rw [matchLastAt_digits h]
    exact ih (fun x hx => h x (by simp [hx]))

theorem takeDigits_all {l : List Char} (h : ∀ c ∈ l, isDigitChar c = true) :
    ∀ n, n ≤ l.length → takeDigits n l = some (l.take n, l.drop n) := by
  induction l with
  | nil =>
    intro n hn
    simp only [List.length_nil] at hn
    have hz : n = 0 := by omega
    subst hz
    rfl
  | cons c cs ih =>
    intro n hn
    cases n with
    | zero => rfl
    | succ m =>
      simp only [takeDigits, h c (by simp), if_true,
        ih (fun x hx => h x (by simp [hx])) m (by simpa using hn)]
      simp

theorem isoDateMs_digits {l : List Char} (h : ∀ c ∈ l, isDigitChar c = true)
    (hlen : 5 ≤ l.length) : isoDateMs l = none := by
  rcases l with _ | ⟨a, l1⟩
  · simp at hlen
  rcases l1 with _ | ⟨b, l2⟩
  · simp at hlen
  rcases l2 with _ | ⟨c2, l3⟩
  · simp at hlen
  rcases l3 with _ | ⟨d2, l4⟩
  · simp at hlen
  rcases l4 with _ | ⟨e, tl⟩
  · simp at hlen
  have ha := h a (by simp)
  have he := h e (by simp)
  have hna : ¬(a = '+') := by
    intro hEq
    rw [hEq] at ha
    simp [isDigitChar] at ha
  have hnb : ¬(a = '-') := by
    intro hEq
    rw [hEq] at ha
    simp [isDigitChar] at ha
  have hend : ¬(e = '-') := by
    intro hEq
    rw [hEq] at he
    simp [isDigitChar] at he
  have hteq : ¬(e = 'T') := by
    intro hEq
    rw [hEq] at he
    simp [isDigitChar] at he
  have ht4 : takeDigits 4 (a :: b :: c2 :: d2 :: e :: tl) =
      some ([a, b, c2, d2], e :: tl) := by
    have := takeDigits_all h 4 (by simp)
    simpa using this
  unfold isoDateMs parseYearPart
  simp only [if_neg hna, if_neg hnb, ht4]
  simp only [parseMonthDay, if_neg hend, daysInMonth]
  simp [hteq]

theorem jsParseFloat_digits {l : List Char} (hne : l ≠ [])
    (h : ∀ c ∈ l, isDigitChar c = true) :
    jsParseFloat (String.mk l) = some (.finite ((digitsToNat l : Rat))) := by
  obtain ⟨c, cs, rfl⟩ : ∃ c cs, l = c :: cs := by
    cases l with
    | nil => exact absurd rfl hne
    | cons c cs => exact ⟨c, cs, rfl⟩
  have hc := h c (by simp)
  have hws : jsWsChar c = false := isDigitChar_not_ws hc
  have hplus : ¬(c = '+') := by
    intro hEq
    rw [hEq] at hc
    simp [isDigitChar] at hc
  have hminus : ¬(c = '-') := by
    intro hEq
    rw [hEq] at hc
    simp [isDigitChar] at hc
  have hI : ¬('I' = c) := by
    intro hEq
    rw [← hEq] at hc
    simp [isDigitChar] at hc
  have hInf : matchLit "Infinity".toList (c :: cs) = none := by
    rw [show "Infinity".toList = 'I' :: "nfinity".toList from rfl]
    simp only [matchLit]
    rw [if_neg hI]
  simp only [jsParseFloat, show (String.mk (c :: cs)).toList = c :: cs from rfl,
    List.dropWhile_cons, hws, Bool.false_eq_true, if_false, if_neg hplus, if_neg hminus,
    hInf, spanDigits_all h]
  norm_num [show digitsToNat [] = 0 from rfl]

theorem digitsToNat_foldl_lt {l : List Char} (h : ∀ c ∈ l, isDigitChar c = true) :
    ∀ acc : Nat,
      List.foldl (fun a c => a * 10 + (c.toNat - 48)) acc l < (acc + 1) * 10 ^ l.length := by
  induction l with
  | nil =>
    intro acc
    simp
  | cons c cs ih =>
    intro acc
    have hc9 : c.toNat ≤ 57 := digit_toNat_le (isDigitChar_bounds (h c (by simp))).2
    have step := ih (fun x hx => h x (by simp [hx])) (acc * 10 + (c.toNat - 48))
    simp only [List.foldl_cons, List.length_cons]
    calc List.foldl (fun a c => a * 10 + (c.toNat - 48)) (acc * 10 + (c.toNat - 48)) cs
        < (acc * 10 + (c.toNat - 48) + 1) * 10 ^ cs.length := step
      _ ≤ ((acc + 1) * 10) * 10 ^ cs.length :=
          Nat.mul_le_mul_right _ (by omega)
      _ = (acc + 1) * 10 ^ (cs.length + 1) := by ring

theorem digitsToNat_lt {l : List Char} (h : ∀ c ∈ l, isDigitChar c = true) :
    digitsToNat l < 10 ^ l.length := by
  simpa [digitsToNat] using digitsToNat_foldl_lt h 0

theorem digits_length_ge {l : List Char} (h : ∀ c ∈ l, isDigitChar c = true)
    (hlo : 946684800 < digitsToNat l) : 9 ≤ l.length := by
  by_contra hcon
  push_neg at hcon
  have h1 := digitsToNat_lt h
  have h2 : (10 : Nat) ^ l.length ≤ 10 ^ 8 := Nat.pow_le_pow_right (by omega) (by omega)
  have h3 : (10 : Nat) ^ 8 = 100000000 := by norm_num
  omega

theorem dropWhile_head_not {p : Char → Bool} :
    ∀ (l : List Char) {d : Char} {ds : List Char},
      List.dropWhile p l = d :: ds → p d = false := by
  intro l
  induction l with
  | nil =>
    intro d ds hx
    simp at hx
  | cons c cs ih =>
    intro d ds hx
    simp only [List.dropWhile_cons] at hx
    by_cases hpc : p c = true
    · rw [if_pos hpc] at hx
      exact ih hx
    · rw [if_neg hpc] at hx
      cases hx
      simpa using hpc

theorem digitsToNat_dropZeros (l : List Char) :
    digitsToNat (l.dropWhile (fun c => c = '0')) = digitsToNat l := by
  induction l with
  | nil => rfl
  | cons c cs ih =>
    by_cases hc : c = '0'
    · subst hc
      have hstep : (('0' :: cs).dropWhile (fun c => c = '0')) =
          cs.dropWhile (fun c => c = '0') := by
        simp [List.dropWhile_cons]
      rw [hstep, ih]
      rfl
    · have hstep : ((c :: cs).dropWhile (fun c2 => c2 = '0')) = c :: cs := by
        simp [List.dropWhile_cons, hc]
      rw [hstep]

theorem digitsToNat_foldl_ge (l : List Char) :
    ∀ acc : Nat,
      acc * 10 ^ l.length ≤ List.foldl (fun a c => a * 10 + (c.toNat - 48)) acc l := by
  induction l with
  | nil =>
    intro acc
    simp
  | cons c cs ih =>
    intro acc
    simp only [List.foldl_cons, List.length_cons]
    calc acc * 10 ^ (cs.length + 1) = (acc * 10) * 10 ^ cs.length := by ring
      _ ≤ (acc * 10 + (c.toNat - 48)) * 10 ^ cs.length :=
          Nat.mul_le_mul_right _ (by omega)
      _ ≤ _ := ih _

theorem digitsToNat_cons_ge {d : Char} {ds : List Char} (hd : isDigitChar d = true)
    (hnz : ¬(d = '0')) : 10 ^ ds.length ≤ digitsToNat (d :: ds) := by
  have h48 : 48 ≤ d.toNat := UInt32.le_toNat_of_le (by decide) (isDigitChar_bounds hd).1
  have hne48 : d.toNat ≠ 48 := by
    intro he
    apply hnz
    have hofn := Char.ofNat_toNat d
    rw [he] at hofn
    exact hofn.symm.trans (by decide)
  have hlow : digitsToNat (d :: ds) =
      List.foldl (fun a c => a * 10 + (c.toNat - 48)) (d.toNat - 48) ds := by
    simp [digitsToNat, List.foldl_cons]
  rw [hlow]
  calc 10 ^ ds.length = 1 * 10 ^ ds.length := (one_mul _).symm
    _ ≤ (d.toNat - 48) * 10 ^ ds.length := Nat.mul_le_mul_right _ (by omega)
    _ ≤ _ := digitsToNat_foldl_ge ds _

theorem legacyNumeralMs_big {l : List Char} (h : ∀ c ∈ l, isDigitChar c = true)
    (hlo : 946684800 < digitsToNat l) : legacyNumeralMs l = none := by
  have hne : l ≠ [] := by
    rintro rfl
    simp [digitsToNat] at hlo
  have hall : l.all isDigitChar = true := by
    rw [List.all_eq_true]
    exact h
  obtain ⟨d, ds2, hcons⟩ : ∃ d ds2, l.dropWhile (fun c => c = '0') = d :: ds2 := by
    cases hdw : l.dropWhile (fun c => c = '0') with
    | nil =>
      exfalso
      have hv := digitsToNat_dropZeros l
      rw [hdw] at hv
      have hz : digitsToNat ([] : List Char) = 0 := rfl
      omega
    | cons d ds2 => exact ⟨d, ds2, rfl⟩
  have hsub : ∀ c ∈ l.dropWhile (fun c => c = '0'), isDigitChar c = true :=
    fun c hc => h c (List.dropWhile_subset _ hc)
  have hval := digitsToNat_dropZeros l
  have hlen2 : 9 ≤ (l.dropWhile (fun c => c = '0')).length := by
    apply digits_length_ge hsub
    rw [hval]
    exact hlo
  have hd : isDigitChar d = true := hsub d (by rw [hcons]; simp)
  have hd0 : ¬(d = '0') := by
    have hh := dropWhile_head_not l hcons
    simpa using hh
  have hlt8 : 8 ≤ ds2.length := by
    rw [hcons] at hlen2
    simp only [List.length_cons] at hlen2
    omega
  have htake : (l.dropWhile (fun c => c = '0')).take 9 = d :: ds2.take 8 := by
    rw [hcons]
    rfl
  have hlen8 : (ds2.take 8).length = 8 := by
    rw [List.length_take]
    omega
  have hn : 100000000 ≤ digitsToNat ((l.dropWhile (fun c => c = '0')).take 9) := by
    rw [htake]
    have hge : 10 ^ (ds2.take 8).length ≤ digitsToNat (d :: ds2.take 8) :=
      digitsToNat_cons_ge hd hd0
    rw [hlen8] at hge
    calc (100000000 : Nat) = 10 ^ 8 := by norm_num
      _ ≤ _ := hge
  simp only [legacyNumeralMs]
  rw [if_pos ⟨hne, hall⟩]
  set n := digitsToNat ((l.dropWhile (fun c => c = '0')).take 9) with hndef
  have h12 : ¬(1 ≤ n ∧ n ≤ 12) := by omega
  have h31 : ¬(13 ≤ n ∧ n ≤ 31) := by omega
  rw [if_neg h12, if_neg h31]
  have h50 : ¬(n < 50) := by omega
  have h100 : ¬(n < 100) := by omega
  rw [if_neg h50, if_neg h100]
  have hms : ¬((civilMs (n : Int) 1 1 0 0 0 0 0).natAbs ≤ maxDateMs.natAbs) := by
    simp only [civilMs, daysFromCivil, maxDateMs]
    rw [if_pos (by norm_num : (1 : Nat) ≤ 2)]
    omega
  rw [if_neg hms]

theorem jsDateParseL_digits {l : List Char} (h : ∀ c ∈ l, isDigitChar c = true)
    (hlo : 946684800 < digitsToNat l) : jsDateParseL l = none := by
  have hlen : 9 ≤ l.length := digits_length_ge h hlo
  unfold jsDateParseL
  rw [isoDateMs_digits h (by omega)]
  exact legacyNumeralMs_big h hlo

/-- Any all-digit literal whose value is a unix-seconds count above the
2000-01-01 cutoff and within the representable Date range parses into the
absolute timestamp at that count times 1000 ms. -/
theorem parseTimeToTimestamp_digit_literal {ds : List Char} (hne : ds ≠ [])
    (h : ∀ c ∈ ds, isDigitChar c = true) (hlo : 946684800 < digitsToNat ds)
    (hhi : digitsToNat ds ≤ 8640000000000) :
    parseTimeToTimestamp (String.mk ds) = .ok (.literalMs (digitsToNat ds * 1000)) := by
  have hlen : 9 ≤ ds.length := digits_length_ge h hlo
  have hlist : (String.mk ds).toList = ds := rfl
  have hnotnow : ¬(ds = "now".toList ∨ ds = "current".toList) := by
    rintro (e | e)
    · have := h 'n' (by rw [e]; decide)
      simp [isDigitChar] at this
    · have := h 'c' (by rw [e]; decide)
      simp [isDigitChar] at this
  have hnotyt : ¬(ds = "yesterday".toList ∨ ds = "today".toList) := by
    rintro (e | e)
    · have := h 'y' (by rw [e]; decide)
      simp [isDigitChar] at this
    · have := h 't' (by rw [e]; decide)
      simp [isDigitChar] at this
  have hdate : jsDateParse (String.mk ds) = none := by
    unfold jsDateParse
    rw [hlist]
    exact jsDateParseL_digits h hlo
  have hfloat : jsParseFloat (String.mk ds) = some (.finite ((digitsToNat ds : Rat))) :=
    jsParseFloat_digits hne h
  have hpos : (0 : Rat) < (digitsToNat ds : Rat) := by
    exact_mod_cast Nat.pos_of_ne_zero (by omega)
  have hgt : (946684800 : Rat) < (digitsToNat ds : Rat) := by exact_mod_cast hlo
  have habs : |((digitsToNat ds : Rat)) * 1000| ≤ ((maxDateMs : Int) : Rat) := by
    rw [abs_of_nonneg (by positivity)]
    have hb : (digitsToNat ds * 1000 : Nat) ≤ 8640000000000000 := by omega
    simp only [maxDateMs]
    exact_mod_cast hb
  simp only [parseTimeToTimestamp, hlist, jsToLowerL_digits h, jsTrimL_digits h,
    parseAfterLower, if_neg hnotnow, agoSearch_digits h, lastSearch_digits h,
    if_neg hnotyt, hdate, hfloat]
  rw [if_pos ⟨hpos, hgt⟩, if_pos habs]
  have hcast : ((digitsToNat ds : Rat)) * 1000 = ((digitsToNat ds * 1000 : Nat) : Rat) := by
    push_cast
    ring
  rw [hcast, Int.floor_natCast]
  norm_cast

theorem parse_unix_1705312200 :
    parseTimeToTimestamp "1705312200" = .ok (.literalMs 1705312200000) := by
  have h := @parseTimeToTimestamp_digit_literal "1705312200".toList
    (by decide) (by decide) (by decide) (by decide)
  exact h

theorem parse_42_legacy :
    parseTimeToTimestamp "42" = .ok (.literalMs 2272147200000) := by decide

theorem parse_12_legacy :
    parseTimeToTimestamp "12" = .ok (.literalMs 1007164800000) := by decide

theorem parse_13_fails : parseTimeToTimestamp "13" = .error (invalidTimeMsg "13") := by
  have hfloat : jsParseFloat "13" = some (.finite ((13 : Nat) : Rat)) :=
    @jsParseFloat_digits "13".toList (by decide) (by decide)
  have hn1 : ¬("13".toList = "now".toList ∨ "13".toList = "current".toList) := by decide
  have hn2 : ¬("13".toList = "yesterday".toList ∨ "13".toList = "today".toList) := by decide
  simp only [parseTimeToTimestamp,
    show jsTrimL (jsToLowerL "13".toList) = "13".toList from by decide, parseAfterLower,
    hn1, hn2, if_false,
    show agoSearch "13".toList = none from by decide,
    show lastSearch "13".toList = none from by decide,
    show jsDateParse "13" = none from by decide, hfloat]
  rw [if_neg]
  intro hcon
  have := hcon.2
  norm_num at this

theorem parse_big_fails :
    parseTimeToTimestamp "10000000000000" = .error "Invalid time value" := by
  have hfloat : jsParseFloat "10000000000000" =
      some (.finite ((10000000000000 : Nat) : Rat)) :=
    @jsParseFloat_digits "10000000000000".toList (by decide) (by decide)
  have hn1 : ¬("10000000000000".toList = "now".toList ∨
      "10000000000000".toList = "current".toList) := by decide
  have hn2 : ¬("10000000000000".toList = "yesterday".toList ∨
      "10000000000000".toList = "today".toList) := by decide
  simp only [parseTimeToTimestamp,
    show jsTrimL (jsToLowerL "10000000000000".toList) = "10000000000000".toList from by decide,
    parseAfterLower, hn1, hn2, if_false,
    show agoSearch "10000000000000".toList = none from by decide,
    show lastSearch "10000000000000".toList = none from by decide,
    show jsDateParse "10000000000000" = none from by decide, hfloat]
  rw [if_pos (by constructor <;> norm_num), if_neg]
  intro hcon
  rw [abs_of_nonneg (by positivity)] at hcon
  simp only [maxDateMs] at hcon
  norm_num at hcon

/-- C6: for the inputs `yesterday` and `today` — case-insensitively, after
trimming — the time-expression parser returns one and the same result: the
current instant minus exactly 1 day. -/
theorem yesterday_today_same_offset :
    (∀ s : String, jsTrimL (jsToLowerL s.toList) = "yesterday".toList →
      parseTimeToTimestamp s = .ok (.sub 1 "DAY")) ∧
    (∀ s : String, jsTrimL (jsToLowerL s.toList) = "today".toList →
      parseTimeToTimestamp s = .ok (.sub 1 "DAY")) ∧
    parseTimeToTimestamp "yesterday" = parseTimeToTimestamp "today" ∧
    parseTimeToTimestamp "Yesterday" = .ok (.sub 1 "DAY") ∧
    parseTimeToTimestamp " TODAY " = .ok (.sub 1 "DAY") := by
  refine ⟨?_, ?_, by decide, by decide, by decide⟩
  · intro s h
    unfold parseTimeToTimestamp
    rw [h]
    rfl
  · intro s h
    unfold parseTimeToTimestamp
    rw [h]
    rfl

/-- Witness for C6: the quantified clauses applied at the plain lowercase
inputs themselves. -/
theorem yesterday_today_same_offset_witness :
    parseTimeToTimestamp "yesterday" = .ok (.sub 1 "DAY") ∧
    parseTimeToTimestamp "today" = .ok (.sub 1 "DAY") :=
  ⟨yesterday_today_same_offset.1 "yesterday" (by decide),
   yesterday_today_same_offset.2.1 "today" (by decide)⟩

/-- C5 counterexample: the input `42`, featured by the claim as an example
that should produce the validation error naming the input, matches none of
the grammar forms yet parses successfully: the V8 legacy `Date` fallback of
node 20 reads a bare numeral as a year (two-digit years windowed to
1950-2049), so `new Date("42")` is 2042-01-01 and the tool returns that
timestamp.  A second refuting input, the all-digit Unix-seconds literal
`10000000000000`, exceeds the representable `Date` range, so
`toISOString()` throws `RangeError: Invalid time value`, again not the
claimed validation error naming the input. -/
theorem time_grammar_counterexample :
    parseTimeToTimestamp "42" = .ok (.literalMs 2272147200000) ∧
    ¬(parseTimeToTimestamp "42" = .error (invalidTimeMsg "42")) ∧
    946684800 < digitsToNat "10000000000000".toList ∧
    parseTimeToTimestamp "10000000000000" = .error "Invalid time value" := by
  refine ⟨parse_42_legacy, ?_, by decide, parse_big_fails⟩
  rw [parse_42_legacy]
  simp

/-- C5 (amended): the time-expression parser follows the priority grammar —
`now`/`current` first, then `N unit ago`, then `last N unit` (units second
through year, optionally pluralized, case-insensitive), then JavaScript date
parsing, then a numeric Unix-seconds literal accepted only above 946684800.
JavaScript date parsing covers the ISO format and also the V8 (node 20)
legacy numeral fallback, so a bare numeral such as `42` parses as the year
2042 and `12` as December 2001 rather than failing; `13` (a bare
day-of-month) and non-date words such as `banana` fail with a validation
error naming the input; `Infinity` and Unix-seconds literals beyond the
representable `Date` range (more than 8,640,000,000,000 seconds) fail with
`RangeError: Invalid time value` instead, while in-range all-digit literals
above 946684800 parse into the corresponding millisecond timestamp. -/
theorem time_grammar_spec :
    parseTimeToTimestamp "now" = .ok .currentTimestamp ∧
    parseTimeToTimestamp "current" = .ok .currentTimestamp ∧
    parseTimeToTimestamp "  NOW " = .ok .currentTimestamp ∧
    parseTimeToTimestamp "2 hours ago" = .ok (.sub 2 "HOUR") ∧
    parseTimeToTimestamp "2 HOURS AGO" = .ok (.sub 2 "HOUR") ∧
    parseTimeToTimestamp "1 week ago" = .ok (.sub 1 "WEEK") ∧
    parseTimeToTimestamp "last 3 days" = .ok (.sub 3 "DAY") ∧
    parseTimeToTimestamp "2024-01-15T10:30:00Z" = .ok (.literalMs 1705314600000) ∧
    parseTimeToTimestamp "1705312200" = .ok (.literalMs 1705312200000) ∧
    parseTimeToTimestamp "42" = .ok (.literalMs 2272147200000) ∧
    parseTimeToTimestamp "12" = .ok (.literalMs 1007164800000) ∧
    parseTimeToTimestamp "13" = .error (invalidTimeMsg "13") ∧
    parseTimeToTimestamp "banana" = .error (invalidTimeMsg "banana") ∧
    parseTimeToTimestamp "Infinity" = .error "Invalid time value" ∧
    (∀ ds : List Char, ds ≠ [] → (∀ c ∈ ds, isDigitChar c = true) →
      946684800 < digitsToNat ds → digitsToNat ds ≤ 8640000000000 →
      parseTimeToTimestamp (String.mk ds) = .ok (.literalMs (digitsToNat ds * 1000))) := by
  refine ⟨by decide, by decide, by decide, by decide, by decide, by decide, by decide,
    by decide, parse_unix_1705312200, parse_42_legacy, parse_12_legacy, parse_13_fails,
    by decide, by decide, ?_⟩
  intro ds hne h hlo hhi
  exact parseTimeToTimestamp_digit_literal hne h hlo hhi

/-- Witness for C5 (amended): the quantified Unix-seconds clause applied at
the literal `946684801`. -/
theorem time_grammar_spec_witness :
    parseTimeToTimestamp (String.mk ['9', '4', '6', '6', '8', '4', '8', '0', '1']) =
      .ok (.literalMs (digitsToNat ['9', '4', '6', '6', '8', '4', '8', '0', '1'] * 1000)) :=
  time_grammar_spec.2.2.2.2.2.2.2.2.2.2.2.2.2.2 ['9', '4', '6', '6', '8', '4', '8', '0', '1']
    (by decide) (by decide) (by decide) (by decide)

/-! ### `analyzeFieldStructure` (`src/utils.ts` lines 77-110, inlined at
`src/server.ts` lines 336-363) -/

/-- A JSON value as the log records hold them (JavaScript numbers restricted
to the integers the claims exercise). -/
inductive Json where
  | num (n : Int)
  | str (s : String)
  | bool (b : Bool)
  | null
  | arr (elems : List Json)
  | obj (fields : List (String × Json))

/-- JavaScript `typeof`: note `typeof null` and `typeof` of an array are both
`"object"`. -/
def typeofJson : Json → String
  | .num _ => "number"
  | .str _ => "string"
  | .bool _ => "boolean"
  | .null => "object"
  | .arr _ => "object"
  | .obj _ => "object"

/-- The guard `typeof value === "object" && value !== null && !Array.isArray(value)`. -/
def isPlainObj : Json → Bool
  | .obj _ => true
  | _ => false

/-- An entry of `fieldAnalysis` (`FieldInfo` in `src/types.ts`). -/
structure FieldInfo where
  type : String
  sampleValues : List Json
  isNested : Bool

/-- The `fieldAnalysis` record: a JS object used as a map preserves key
insertion order, modelled as an association list. -/
abbrev FieldTable := List (String × FieldInfo)

/-- `fieldAnalysis[fullKey]` read access. -/
def getField : FieldTable → String → Option FieldInfo
  | [], _ => none
  | (k, v) :: rest, key => if k = key then some v else getField rest key

/-- `fieldAnalysis[fullKey] = info`: overwrites in place, or appends a new key
at the end, as JS object assignment does. -/
def setField : FieldTable → String → FieldInfo → FieldTable
  | [], key, info => [(key, info)]
  | (k, v) :: rest, key, info =>
    if k = key then (key, info) :: rest else (k, v) :: setField rest key info

/-- Lines 86-92: `if (!fieldAnalysis[fullKey]) fieldAnalysis[fullKey] =
{ type: typeof value, sampleValues: [], isNested: false }`. -/
def ensureField (st : FieldTable) (key ty : String) : FieldTable :=
  match getField st key with
  | some _ => st
  | none => setField st key ⟨ty, [], false⟩

/-- Line 95: `fieldAnalysis[fullKey].isNested = true`. -/
def markNested (st : FieldTable) (key : String) : FieldTable :=
  match getField st key with
  | some info => setField st key { info with isNested := true }
  | none => st

/-- Lines 98-100: push the value when fewer than 3 samples are recorded. -/
def pushSample (st : FieldTable) (key : String) (v : Json) : FieldTable :=
  match getField st key with
  | some info =>
    if info.sampleValues.length < 3 then
      setField st key { info with sampleValues := info.sampleValues ++ [v] }
    else st
  | none => st

/-- The recursive `analyzeObject` walk over one object's entries, threading
the `fieldAnalysis` state: ensure the entry, then either recurse into a plain
object (marking the path nested) or record the scalar sample (the source's
single else-branch is spelled per constructor here; each arm is the same
`pushSample`). -/
def analyzeFields (fields : List (String × Json)) (pfx : String) (st : FieldTable) :
    FieldTable :=
  match fields with
  | [] => st
  | (k, v) :: rest =>
    let fullKey := if pfx = "" then k else pfx ++ "." ++ k
    let st1 := ensureField st fullKey (typeofJson v)
    let st2 :=
      match v with
      | .obj inner => analyzeFields inner fullKey (markNested st1 fullKey)
      | .num n => pushSample st1 fullKey (.num n)
      | .str s2 => pushSample st1 fullKey (.str s2)
      | .bool b => pushSample st1 fullKey (.bool b)
      | .null => pushSample st1 fullKey .null
      | .arr elems => pushSample st1 fullKey (.arr elems)
    analyzeFields rest pfx st2
termination_by sizeOf fields
decreasing_by
  all_goals simp
  all_goals omega

/-- `analyzeFieldStructure`: fold `analyzeObject` over the sample records
(each record is the field list of one log object). -/
def analyzeFieldStructure (logs : List (List (String × Json))) : FieldTable :=
  logs.foldl (fun st fields => analyzeFields fields "" st) []

/-- Specification-side observation (named after the spec's description of
field flattening): the values occurring at dot-joined path `p` during the
walk of one entry list, in traversal order. -/
def occAt (fields : List (String × Json)) (pfx : String) (p : String) : List Json :=
  match fields with
  | [] => []
  | (k, v) :: rest =>
    let fullKey := if pfx = "" then k else pfx ++ "." ++ k
    ((if p = fullKey then [v] else []) ++
      (match v with
       | .obj inner => occAt inner fullKey p
       | .num _ => []
       | .str _ => []
       | .bool _ => []
       | .null => []
       | .arr _ => [])) ++
      occAt rest pfx p
termination_by sizeOf fields
decreasing_by
  all_goals simp
  all_goals omega

/-- The occurrences at `p` across a whole sample list. -/
def occList (logs : List (List (String × Json))) (p : String) : List Json :=
  logs.flatMap (fun r => occAt r "" p)

/-- The non-object occurrences: exactly the values the walk records as
samples. -/
def scalarsOf (occ : List Json) : List Json :=
  occ.filter (fun v => !isPlainObj v)

/-- How one batch of occurrences updates a field entry: a fresh entry takes
the first occurrence's type, up to 3 scalar samples, and nestedness from any
object occurrence; an existing entry keeps its type, tops its samples up to 3,
and accumulates nestedness. -/
def mergeInfo : Option FieldInfo → List Json → Option FieldInfo
  | none, [] => none
  | some i, occ =>
    some { type := i.type,
           sampleValues := i.sampleValues ++ (scalarsOf occ).take (3 - i.sampleValues.length),
           isNested := i.isNested || occ.any isPlainObj }
  | none, o :: os =>
    some { type := typeofJson o,
           sampleValues := (scalarsOf (o :: os)).take 3,
           isNested := (o :: os).any isPlainObj }

theorem scalarsOf_append (o1 o2 : List Json) :
    scalarsOf (o1 ++ o2) = scalarsOf o1 ++ scalarsOf o2 := by
  simp [scalarsOf]

theorem take_append_take (n : Nat) (s1 s2 : List Json) :
    s1.take n ++ s2.take (n - (s1.take n).length) = (s1 ++ s2).take n := by
  rw [List.take_append_eq_append_take]
  congr 2
  simp only [List.length_take]
  omega

theorem mergeInfo_nil (x : Option FieldInfo) : mergeInfo x [] = x := by
  cases x with
  | none => rfl
  | some i => simp [mergeInfo, scalarsOf]

theorem mergeInfo_append (x : Option FieldInfo) (o1 o2 : List Json) :
    mergeInfo (mergeInfo x o1) o2 = mergeInfo x (o1 ++ o2) := by
  cases x with
  | none =>
    cases o1 with
    | nil => simp [mergeInfo_nil]
    | cons o os =>
      simp only [mergeInfo, List.cons_append]
      congr 1
      simp only [FieldInfo.mk.injEq, true_and]
      refine ⟨?_, ?_⟩
      · rw [show (o :: (os ++ o2) : List Json) = (o :: os) ++ o2 from rfl, scalarsOf_append]
        exact take_append_take 3 (scalarsOf (o :: os)) (scalarsOf o2)
      · rw [show (o :: (os ++ o2) : List Json) = (o :: os) ++ o2 from rfl]
        simp [List.any_append, Bool.or_assoc]
  | some i =>
    cases o1 with
    | nil => simp [mergeInfo_nil]
    | cons o os =>
      simp only [mergeInfo]
      congr 1
      simp only [FieldInfo.mk.injEq, true_and]
      refine ⟨?_, ?_⟩
      · simp only [scalarsOf_append, List.append_assoc]
        congr 1
        have h := take_append_take (3 - i.sampleValues.length)
          (scalarsOf (o :: os)) (scalarsOf o2)
        have hlen : 3 - (i.sampleValues ++
            (scalarsOf (o :: os)).take (3 - i.sampleValues.length)).length =
            (3 - i.sampleValues.length) -
              ((scalarsOf (o :: os)).take (3 - i.sampleValues.length)).length := by
          simp only [List.length_append, List.length_take]
          omega
        rw [hlen]
        exact h
      · simp [List.any_append, Bool.or_assoc]

theorem getField_setField (st : FieldTable) (k : String) (info : FieldInfo) (p : String) :
    getField (setField st k info) p = if k = p then some info else getField st p := by
  induction st with
  | nil => rfl
  | cons hd tl ih =>
    obtain ⟨k0, v0⟩ := hd
    by_cases h0 : k0 = k
    · subst h0
      by_cases h1 : k0 = p <;> simp [setField, getField, h1]
    · by_cases h1 : k0 = p
      · subst h1
        have hkp : ¬(k = k0) := fun e => h0 e.symm
        simp [setField, getField, h0, hkp]
      · simp [setField, getField, h0, h1, ih]

theorem getField_ensureField (st : FieldTable) (k ty p : String) :
    getField (ensureField st k ty) p =
      if k = p then
        some (match getField st k with | some i => i | none => ⟨ty, [], false⟩)
      else getField st p := by
  cases hsk : getField st k with
  | some i =>
    by_cases hp : k = p
    · subst hp
      simp [ensureField, hsk]
    · simp [ensureField, hsk, hp]
  | none =>
    by_cases hp : k = p
    · subst hp
      simp [ensureField, hsk, getField_setField]
    · simp [ensureField, hsk, getField_setField, hp]

theorem getField_markNested (st : FieldTable) (k p : String) :
    getField (markNested st k) p =
      if k = p then
        (match getField st k with
         | some i => some { i with isNested := true }
         | none => none)
      else getField st p := by
  cases hsk : getField st k with
  | some i =>
    by_cases hp : k = p
    · subst hp
      simp [markNested, hsk, getField_setField]
    · simp [markNested, hsk, getField_setField, hp]
  | none =>
    by_cases hp : k = p
    · subst hp
      simp [markNested, hsk]
    · simp [markNested, hsk, hp]

theorem getField_pushSample (st : FieldTable) (k : String) (v : Json) (p : String) :
    getField (pushSample st k v) p =
      if k = p then
        (match getField st k with
         | some i =>
           if i.sampleValues.length < 3 then
             some { i with sampleValues := i.sampleValues ++ [v] }
           else some i
         | none => none)
      else getField st p := by
  cases hsk : getField st k with
  | some i =>
    by_cases hl : i.sampleValues.length < 3
    · by_cases hp : k = p
      · subst hp
        simp [pushSample, hsk, hl, getField_setField]
      · simp [pushSample, hsk, hl, getField_setField, hp]
    · by_cases hp : k = p
      · subst hp
        simp [pushSample, hsk, hl]
      · simp [pushSample, hsk, hl, hp]
  | none =>
    by_cases hp : k = p
    · subst hp
      simp [pushSample, hsk]
    · simp [pushSample, hsk, hp]

/-- One scalar step of the walk updates the entry at `fullKey` exactly as a
one-element occurrence batch does. -/
theorem getField_step_scalar (st : FieldTable) (fk : String) (v : Json)
    (hv : isPlainObj v = false) (p : String) :
    getField (pushSample (ensureField st fk (typeofJson v)) fk v) p =
      mergeInfo (getField st p) (if p = fk then [v] else []) := by
  by_cases hp : fk = p
  · subst hp
    rw [getField_pushSample, if_pos rfl, getField_ensureField, if_pos rfl]
    rw [if_pos rfl]
    cases hsk : getField st fk with
    | some i =>
      by_cases hl : i.sampleValues.length < 3
      · have ht : (scalarsOf [v]).take (3 - i.sampleValues.length) = [v] := by
          have h3 : 1 ≤ 3 - i.sampleValues.length := by omega
          simp only [scalarsOf, List.filter, hv, Bool.not_false]
          cases h4 : 3 - i.sampleValues.length with
          | zero => omega
          | succ m => simp
        simp [mergeInfo, hl, ht, hv]
      · have ht : (scalarsOf [v]).take (3 - i.sampleValues.length) = [] := by
          have h3 : 3 - i.sampleValues.length = 0 := by omega
          simp [scalarsOf, hv, h3]
        simp [mergeInfo, hl, ht, hv]
    | none =>
      simp [mergeInfo, scalarsOf, hv]
  · rw [getField_pushSample, if_neg hp, getField_ensureField, if_neg hp,
      if_neg (fun e => hp e.symm), mergeInfo_nil]

/-- One plain-object step (ensure plus `isNested := true`) updates the entry
at `fullKey` exactly as a one-element object-occurrence batch does. -/
theorem getField_step_obj (st : FieldTable) (fk : String)
    (inner : List (String × Json)) (p : String) :
    getField (markNested (ensureField st fk (typeofJson (Json.obj inner))) fk) p =
      mergeInfo (getField st p) (if p = fk then [Json.obj inner] else []) := by
  by_cases hp : fk = p
  · subst hp
    rw [getField_markNested, if_pos rfl, getField_ensureField, if_pos rfl]
    rw [if_pos rfl]
    cases hsk : getField st fk with
    | some i => simp [mergeInfo, scalarsOf, isPlainObj, typeofJson]
    | none => simp [mergeInfo, scalarsOf, isPlainObj, typeofJson]
  · rw [getField_markNested, if_neg hp, getField_ensureField, if_neg hp,
      if_neg (fun e => hp e.symm), mergeInfo_nil]

theorem analyzeFields_nil (pfx : String) (st : FieldTable) :
    analyzeFields [] pfx st = st := by
  rw [analyzeFields.eq_def]

theorem analyzeFields_cons_obj (pfx : String) (st : FieldTable) (k : String)
    (inner rest : List (String × Json)) :
    analyzeFields ((k, Json.obj inner) :: rest) pfx st =
      analyzeFields rest pfx
        (analyzeFields inner (if pfx = "" then k else pfx ++ "." ++ k)
          (markNested
            (ensureField st (if pfx = "" then k else pfx ++ "." ++ k)
              (typeofJson (Json.obj inner)))
            (if pfx = "" then k else pfx ++ "." ++ k))) := by
  rw [analyzeFields.eq_def]

theorem analyzeFields_cons_scalar (pfx : String) (st : FieldTable) (k : String)
    (v : Json) (rest : List (String × Json)) (hv : isPlainObj v = false) :
    analyzeFields ((k, v) :: rest) pfx st =
      analyzeFields rest pfx
        (pushSample
          (ensureField st (if pfx = "" then k else pfx ++ "." ++ k) (typeofJson v))
          (if pfx = "" then k else pfx ++ "." ++ k) v) := by
  cases v with
  | obj inner => simp [isPlainObj] at hv
  | num n => rw [analyzeFields.eq_def]
  | str s2 => rw [analyzeFields.eq_def]
  | bool b => rw [analyzeFields.eq_def]
  | null => rw [analyzeFields.eq_def]
  | arr elems => rw [analyzeFields.eq_def]

theorem occAt_nil (pfx p : String) : occAt [] pfx p = [] := by
  rw [occAt.eq_def]

theorem occAt_cons_obj (pfx p k : String) (inner rest : List (String × Json)) :
    occAt ((k, Json.obj inner) :: rest) pfx p =
      ((if p = (if pfx = "" then k else pfx ++ "." ++ k) then [Json.obj inner] else []) ++
        occAt inner (if pfx = "" then k else pfx ++ "." ++ k) p) ++
        occAt rest pfx p := by
  rw [occAt.eq_def]

theorem occAt_cons_scalar (pfx p k : String) (v : Json) (rest : List (String × Json))
    (hv : isPlainObj v = false) :
    occAt ((k, v) :: rest) pfx p =
      (if p = (if pfx = "" then k else pfx ++ "." ++ k) then [v] else []) ++
        occAt rest pfx p := by
  cases v with
  | obj inner => simp [isPlainObj] at hv
  | num n =>
    rw [occAt.eq_def]
    simp
  | str s2 =>
    rw [occAt.eq_def]
    simp
  | bool b =>
    rw [occAt.eq_def]
    simp
  | null =>
    rw [occAt.eq_def]
    simp
  | arr elems =>
    rw [occAt.eq_def]
    simp

/-- Master characterization of the walk: the entry at any path after
analyzing one entry list equals the previous entry merged with the list of
values occurring at that path. -/
theorem getField_analyzeFields (fields : List (String × Json)) (pfx : String)
    (st : FieldTable) :
    ∀ p, getField (analyzeFields fields pfx st) p =
      mergeInfo (getField st p) (occAt fields pfx p) := by
  induction fields, pfx, st using analyzeFields.induct with
  | case1 pfx st =>
    intro p
    rw [analyzeFields_nil, occAt_nil, mergeInfo_nil]
  | case2 pfx st k v rest fullKey st1 st2 ih1 ih2 ih3 =>
    intro p
    cases v with
    | obj inner =>
      have h1 : ∀ q, getField (analyzeFields inner (if pfx = "" then k else pfx ++ "." ++ k)
            (markNested
              (ensureField st (if pfx = "" then k else pfx ++ "." ++ k)
                (typeofJson (Json.obj inner)))
              (if pfx = "" then k else pfx ++ "." ++ k))) q =
          mergeInfo
            (getField
              (markNested
                (ensureField st (if pfx = "" then k else pfx ++ "." ++ k)
                  (typeofJson (Json.obj inner)))
                (if pfx = "" then k else pfx ++ "." ++ k)) q)
            (occAt inner (if pfx = "" then k else pfx ++ "." ++ k) q) := ih1
      have h3 : ∀ q, getField (analyzeFields rest pfx
            (analyzeFields inner (if pfx = "" then k else pfx ++ "." ++ k)
              (markNested
                (ensureField st (if pfx = "" then k else pfx ++ "." ++ k)
                  (typeofJson (Json.obj inner)))
                (if pfx = "" then k else pfx ++ "." ++ k)))) q =
          mergeInfo
            (getField
              (analyzeFields inner (if pfx = "" then k else pfx ++ "." ++ k)
                (markNested
                  (ensureField st (if pfx = "" then k else pfx ++ "." ++ k)
                    (typeofJson (Json.obj inner)))
                  (if pfx = "" then k else pfx ++ "." ++ k))) q)
            (occAt rest pfx q) := ih3
      rw [analyzeFields_cons_obj, occAt_cons_obj, h3 p, h1 p, getField_step_obj,
        mergeInfo_append, mergeInfo_append, List.append_assoc]
    | num n =>
      have h3 : ∀ q, getField (analyzeFields rest pfx
            (pushSample
              (ensureField st (if pfx = "" then k else pfx ++ "." ++ k)
                (typeofJson (Json.num n)))
              (if pfx = "" then k else pfx ++ "." ++ k) (Json.num n))) q =
          mergeInfo
            (getField
              (pushSample
                (ensureField st (if pfx = "" then k else pfx ++ "." ++ k)
                  (typeofJson (Json.num n)))
                (if pfx = "" then k else pfx ++ "." ++ k) (Json.num n)) q)
            (occAt rest pfx q) := ih3
      rw [analyzeFields_cons_scalar _ _ _ _ _ (by rfl), occAt_cons_scalar _ _ _ _ _ (by rfl),
        h3 p, getField_step_scalar _ _ _ (by rfl), mergeInfo_append]
    | str s2 =>
      have h3 : ∀ q, getField (analyzeFields rest pfx
            (pushSample
              (ensureField st (if pfx = "" then k else pfx ++ "." ++ k)
                (typeofJson (Json.str s2)))
              (if pfx = "" then k else pfx ++ "." ++ k) (Json.str s2))) q =
          mergeInfo
            (getField
              (pushSample
                (ensureField st (if pfx = "" then k else pfx ++ "." ++ k)
                  (typeofJson (Json.str s2)))
                (if pfx = "" then k else pfx ++ "." ++ k) (Json.str s2)) q)
            (occAt rest pfx q) := ih3
      rw [analyzeFields_cons_scalar _ _ _ _ _ (by rfl), occAt_cons_scalar _ _ _ _ _ (by rfl),
        h3 p, getField_step_scalar _ _ _ (by rfl), mergeInfo_append]
    | bool b =>
      have h3 : ∀ q, getField (analyzeFields rest pfx
            (pushSample
              (ensureField st (if pfx = "" then k else pfx ++ "." ++ k)
                (typeofJson (Json.bool b)))
              (if pfx = "" then k else pfx ++ "." ++ k) (Json.bool b))) q =
          mergeInfo
            (getField
              (pushSample
                (ensureField st (if pfx = "" then k else pfx ++ "." ++ k)
                  (typeofJson (Json.bool b)))
                (if pfx = "" then k else pfx ++ "." ++ k) (Json.bool b)) q)
            (occAt rest pfx q) := ih3
      rw [analyzeFields_cons_scalar _ _ _ _ _ (by rfl), occAt_cons_scalar _ _ _ _ _ (by rfl),
        h3 p, getField_step_scalar _ _ _ (by rfl), mergeInfo_append]
    | null =>
      have h3 : ∀ q, getField (analyzeFields rest pfx
            (pushSample
              (ensureField st (if pfx = "" then k else pfx ++ "." ++ k)
                (typeofJson Json.null))
              (if pfx = "" then k else pfx ++ "." ++ k) Json.null)) q =
          mergeInfo
            (getField
              (pushSample
                (ensureField st (if pfx = "" then k else pfx ++ "." ++ k)
                  (typeofJson Json.null))
                (if pfx = "" then k else pfx ++ "." ++ k) Json.null) q)
            (occAt rest pfx q) := ih3
      rw [analyzeFields_cons_scalar _ _ _ _ _ (by rfl), occAt_cons_scalar _ _ _ _ _ (by rfl),
        h3 p, getField_step_scalar _ _ _ (by rfl), mergeInfo_append]
    | arr elems =>
      have h3 : ∀ q, getField (analyzeFields rest pfx
            (pushSample
              (ensureField st (if pfx = "" then k else pfx ++ "." ++ k)
                (typeofJson (Json.arr elems)))
              (if pfx = "" then k else pfx ++ "." ++ k) (Json.arr elems))) q =
          mergeInfo
            (getField
              (pushSample
                (ensureField st (if pfx = "" then k else pfx ++ "." ++ k)
                  (typeofJson (Json.arr elems)))
                (if pfx = "" then k else pfx ++ "." ++ k) (Json.arr elems)) q)
            (occAt rest pfx q) := ih3
      rw [analyzeFields_cons_scalar _ _ _ _ _ (by rfl), occAt_cons_scalar _ _ _ _ _ (by rfl),
        h3 p, getField_step_scalar _ _ _ (by rfl), mergeInfo_append]

/-- Top-level characterization: the entry for any path after analyzing all
sample records is the empty entry merged with every occurrence of the path
across the records, in record order. -/
theorem getField_analyzeFieldStructure (logs : List (List (String × Json))) (p : String) :
    getField (analyzeFieldStructure logs) p = mergeInfo none (occList logs p) := by
  suffices h : ∀ st : FieldTable,
      getField (logs.foldl (fun st fields => analyzeFields fields "" st) st) p =
        mergeInfo (getField st p) (occList logs p) by
    simpa [analyzeFieldStructure, getField] using h []
  induction logs with
  | nil =>
    intro st
    simp [occList, mergeInfo_nil]
  | cons r rest ih =>
    intro st
    simp only [List.foldl_cons]
    rw [ih (analyzeFields r "" st), getField_analyzeFields r "" st p, mergeInfo_append]
    simp [occList]

theorem perm_occList {logs logs2 : List (List (String × Json))}
    (h : List.Perm logs logs2) (p : String) :
    List.Perm (occList logs p) (occList logs2 p) :=
  List.Perm.flatMap_right _ h

theorem mergeInfo_none_isSome (occ : List Json) :
    (mergeInfo none occ).isSome = !occ.isEmpty := by
  cases occ <;> rfl

/-- C9 counterexample: with four records all contributing a scalar at path
`a`, reversing the record order (a permutation) changes which values survive
the 3-sample cap, so the membership of the recorded sample values is not
permutation-invariant: 1 is a sample of the first run but not of the
reversed run. -/
theorem field_flattening_counterexample :
    List.Perm
      [[("a", Json.num 1)], [("a", Json.num 2)], [("a", Json.num 3)], [("a", Json.num 4)]]
      [[("a", Json.num 4)], [("a", Json.num 3)], [("a", Json.num 2)], [("a", Json.num 1)]] ∧
    getField
        (analyzeFieldStructure
          [[("a", Json.num 1)], [("a", Json.num 2)], [("a", Json.num 3)], [("a", Json.num 4)]])
        "a" =
      some ⟨"number", [Json.num 1, Json.num 2, Json.num 3], false⟩ ∧
    getField
        (analyzeFieldStructure
          [[("a", Json.num 4)], [("a", Json.num 3)], [("a", Json.num 2)], [("a", Json.num 1)]])
        "a" =
      some ⟨"number", [Json.num 4, Json.num 3, Json.num 2], false⟩ ∧
    Json.num 1 ∈ [Json.num 1, Json.num 2, Json.num 3] ∧
    Json.num 1 ∉ [Json.num 4, Json.num 3, Json.num 2] := by
  refine ⟨?_, ?_, ?_, ?_, ?_⟩
  · exact (List.reverse_perm
      [[("a", Json.num 1)], [("a", Json.num 2)], [("a", Json.num 3)], [("a", Json.num 4)]]).symm
  · simp [analyzeFieldStructure, analyzeFields_nil, analyzeFields_cons_scalar,
      ensureField, markNested, pushSample, getField, setField, typeofJson, isPlainObj]
  · simp [analyzeFieldStructure, analyzeFields_nil, analyzeFields_cons_scalar,
      ensureField, markNested, pushSample, getField, setField, typeofJson, isPlainObj]
  · exact List.mem_cons_self _ _
  · intro hmem
    simp [List.mem_cons] at hmem

/-- C9 (amended): on the two-record example the analysis yields exactly the
paths `a` (nested), `a.b` (samples 1 and 2) and `a.c` (sample 3); for every
input, permuting the records preserves the set of paths produced, each
entry's samples are capped at 3, an entry's type is the `typeof` of the first
occurrence at its path, and `isNested` holds iff some occurrence at the path
is a non-array object; the membership of a path's sample values is
permutation-invariant whenever at most 3 scalar occurrences exist at that
path (with more, the cap keeps the first 3 in record order, so membership
depends on the order). -/
theorem field_flattening_spec :
    (analyzeFieldStructure
        [[("a", Json.obj [("b", Json.num 1)])],
         [("a", Json.obj [("b", Json.num 2), ("c", Json.num 3)])]] =
      [("a", ⟨"object", [], true⟩),
       ("a.b", ⟨"number", [Json.num 1, Json.num 2], false⟩),
       ("a.c", ⟨"number", [Json.num 3], false⟩)]) ∧
    (∀ logs logs2, List.Perm logs logs2 → ∀ p,
      (getField (analyzeFieldStructure logs) p).isSome =
        (getField (analyzeFieldStructure logs2) p).isSome) ∧
    (∀ logs p info, getField (analyzeFieldStructure logs) p = some info →
      info.sampleValues.length ≤ 3) ∧
    (∀ logs p info, getField (analyzeFieldStructure logs) p = some info →
      ∃ o rest2, occList logs p = o :: rest2 ∧ info.type = typeofJson o) ∧
    (∀ logs p info, getField (analyzeFieldStructure logs) p = some info →
      (info.isNested = true ↔ ∃ v ∈ occList logs p, isPlainObj v = true)) ∧
    (∀ logs logs2, List.Perm logs logs2 → ∀ p info info2,
      getField (analyzeFieldStructure logs) p = some info →
      getField (analyzeFieldStructure logs2) p = some info2 →
      (scalarsOf (occList logs p)).length ≤ 3 →
      ∀ v, v ∈ info.sampleValues ↔ v ∈ info2.sampleValues) := by
  refine ⟨?_, ?_, ?_, ?_, ?_, ?_⟩
  · simp [analyzeFieldStructure, analyzeFields_nil, analyzeFields_cons_obj,
      analyzeFields_cons_scalar, ensureField, markNested, pushSample, getField, setField,
      typeofJson, isPlainObj]
  · intro logs logs2 hperm p
    have hp2 := perm_occList hperm p
    rw [getField_analyzeFieldStructure, getField_analyzeFieldStructure,
      mergeInfo_none_isSome, mergeInfo_none_isSome]
    cases h1 : occList logs p with
    | nil =>
      have h2 : occList logs2 p = [] := ((h1 ▸ hp2).symm).eq_nil
      rw [h2]
    | cons o os =>
      cases h2 : occList logs2 p with
      | nil =>
        have h3 : occList logs p = [] := (h2 ▸ hp2).eq_nil
        rw [h1] at h3
        exact absurd h3 (by simp)
      | cons o2 os2 => rfl
  · intro logs p info hsome
    rw [getField_analyzeFieldStructure] at hsome
    cases hocc : occList logs p with
    | nil =>
      rw [hocc] at hsome
      simp [mergeInfo] at hsome
    | cons o os =>
      rw [hocc] at hsome
      simp only [mergeInfo, Option.some.injEq] at hsome
      rw [← hsome]
      simp
  · intro logs p info hsome
    rw [getField_analyzeFieldStructure] at hsome
    cases hocc : occList logs p with
    | nil =>
      rw [hocc] at hsome
      simp [mergeInfo] at hsome
    | cons o os =>
      rw [hocc] at hsome
      simp only [mergeInfo, Option.some.injEq] at hsome
      exact ⟨o, os, rfl, by rw [← hsome]⟩
  · intro logs p info hsome
    rw [getField_analyzeFieldStructure] at hsome
    cases hocc : occList logs p with
    | nil =>
      rw [hocc] at hsome
      simp [mergeInfo] at hsome
    | cons o os =>
      rw [hocc] at hsome
      simp only [mergeInfo, Option.some.injEq] at hsome
      rw [← hsome]
      simp
  · intro logs logs2 hperm p info info2 hsome hsome2 hcap v
    have hp2 := perm_occList hperm p
    have hps : List.Perm (scalarsOf (occList logs p)) (scalarsOf (occList logs2 p)) :=
      hp2.filter _
    rw [getField_analyzeFieldStructure] at hsome hsome2
    cases hocc : occList logs p with
    | nil =>
      rw [hocc] at hsome
      simp [mergeInfo] at hsome
    | cons o os =>
      cases hocc2 : occList logs2 p with
      | nil =>
        rw [hocc2] at hsome2
        simp [mergeInfo] at hsome2
      | cons o2 os2 =>
        rw [hocc] at hsome
        rw [hocc2] at hsome2
        simp only [mergeInfo, Option.some.injEq] at hsome hsome2
        rw [hocc] at hcap hps
        rw [hocc2] at hps
        have hcap2 : (scalarsOf (o2 :: os2)).length ≤ 3 := by
          rw [← hps.length_eq]
          exact hcap
        rw [← hsome, ← hsome2]
        simp only [List.take_of_length_le hcap, List.take_of_length_le hcap2]
        exact hps.mem_iff

/-- Witness for C9 (amended): the quantified clauses applied at the concrete
two-record example (the cap at path `a.b`, the nestedness reading at path
`a`, and path-set invariance under swapping the two records). -/
theorem field_flattening_spec_witness :
    (⟨"number", [Json.num 1, Json.num 2], false⟩ : FieldInfo).sampleValues.length ≤ 3 ∧
    ((⟨"object", [], true⟩ : FieldInfo).isNested = true ↔
      ∃ v ∈ occList [[("a", Json.obj [("b", Json.num 1)])],
          [("a", Json.obj [("b", Json.num 2), ("c", Json.num 3)])]] "a",
        isPlainObj v = true) ∧
    (getField (analyzeFieldStructure
        [[("a", Json.obj [("b", Json.num 1)])],
         [("a", Json.obj [("b", Json.num 2), ("c", Json.num 3)])]]) "a.b").isSome =
      (getField (analyzeFieldStructure
        [[("a", Json.obj [("b", Json.num 2), ("c", Json.num 3)])],
         [("a", Json.obj [("b", Json.num 1)])]]) "a.b").isSome :=
  ⟨field_flattening_spec.2.2.1
      [[("a", Json.obj [("b", Json.num 1)])],
       [("a", Json.obj [("b", Json.num 2), ("c", Json.num 3)])]] "a.b" _
      (by simp [analyzeFieldStructure, analyzeFields_nil, analyzeFields_cons_obj,
        analyzeFields_cons_scalar, ensureField, markNested, pushSample, getField, setField,
        typeofJson, isPlainObj]),
   field_flattening_spec.2.2.2.2.1
      [[("a", Json.obj [("b", Json.num 1)])],
       [("a", Json.obj [("b", Json.num 2), ("c", Json.num 3)])]] "a" _
      (by simp [analyzeFieldStructure, analyzeFields_nil, analyzeFields_cons_obj,
        analyzeFields_cons_scalar, ensureField, markNested, pushSample, getField, setField,
        typeofJson, isPlainObj]),
   field_flattening_spec.2.1
      [[("a", Json.obj [("b", Json.num 1)])],
       [("a", Json.obj [("b", Json.num 2), ("c", Json.num 3)])]]
      [[("a", Json.obj [("b", Json.num 2), ("c", Json.num 3)])],
       [("a", Json.obj [("b", Json.num 1)])]]
      (List.Perm.swap _ _ _) "a.b"⟩
